import Mathlib

/-!
Verification development for the receipt-OCR field-extraction pipeline.

The Python source (`app/ocr.py`, `app/main.py`) is shallowly embedded below:
* Python `float` / `Decimal` values are modelled by exact rationals `ℚ`
  (Python's `round(x, 2)` is modelled by round-half-to-even at two decimals);
* Python strings are modelled by Lean `String` over their character lists
  (the receipts handled by the extractor are ASCII, and the `str` predicates
  `isalpha` / `isdigit` / `lower` are modelled by their ASCII counterparts);
* the regular expressions used by the extractor are small and are compiled by
  hand into deterministic scanners over character lists;
* the external `dateutil` parser consumed by `_safe_parse_date` is a parameter
  (`oracle`) of every definition that needs it; a concrete model of it is
  provided for concrete evaluations;
* the database/blob environment of `main.py` is modelled by an explicit state
  record, with the OCR engine and PDF renderer as function parameters.
-/

/-! ## Rounding: Python `round(x, 2)` modelled on `ℚ` (round half to even) -/

/-- Round a rational to the nearest integer, ties to even (banker's rounding),
modelling Python's `round` on the exact value. -/
def rhe (q : ℚ) : ℤ :=
  if q - (⌊q⌋ : ℚ) < 1/2 then ⌊q⌋
  else if 1/2 < q - (⌊q⌋ : ℚ) then ⌊q⌋ + 1
  else if ⌊q⌋ % 2 = 0 then ⌊q⌋ else ⌊q⌋ + 1

/-- Round a rational to two decimal places, ties to even, modelling
Python's `round(x, 2)`. -/
def roundQ2 (q : ℚ) : ℚ := (rhe (q * 100) : ℚ) / 100

/-! ## Confidence aggregation (`_compute_overall_confidence` in `app/ocr.py`) -/

/-- Translation of `_compute_overall_confidence`: weighted sum of pass and
per-field confidences, penalties for missing fields, then round to two
decimals and clamp to [0, 100] (the Python code rounds first, then clamps). -/
def computeOverallConfidence (passConf merchantConf dateConf totalConf taxConf : ℚ)
    (hasTotal hasDate hasTax : Bool) : ℚ :=
  let weighted := passConf * (32/100) + merchantConf * (14/100) + dateConf * (2/10)
    + totalConf * (22/100) + taxConf * (12/100)
  let w2 := if hasTotal then weighted else weighted - 20
  let w3 := if hasDate then w2 else w2 - 10
  let w4 := if hasTax then w3 else w3 - 5
  max 0 (min 100 (roundQ2 w4))

/-- The aggregate score as worded by the specification: the same weighted sum
and penalties, but clamped to [0, 100] first and then rounded to two
decimals. -/
def specOverallConfidence (passConf merchantConf dateConf totalConf taxConf : ℚ)
    (hasTotal hasDate hasTax : Bool) : ℚ :=
  let weighted := passConf * (32/100) + merchantConf * (14/100) + dateConf * (2/10)
    + totalConf * (22/100) + taxConf * (12/100)
  let w2 := if hasTotal then weighted else weighted - 20
  let w3 := if hasDate then w2 else w2 - 10
  let w4 := if hasTax then w3 else w3 - 5
  roundQ2 (max 0 (min 100 w4))

/-! ## String utilities shared by the field extractor (`app/ocr.py`) -/

/-- Lowercase a string character-wise, modelling Python `str.lower` on ASCII. -/
def lowerStr (s : String) : String := String.mk (s.data.map Char.toLower)

/-- Whether `needle` occurs as a contiguous substring of `hay`, modelling
Python's `needle in hay`. -/
def containsList (hay needle : List Char) : Bool :=
  hay.tails.any (fun t => needle.isPrefixOf t)

/-- String form of `containsList`. -/
def containsStr (hay needle : String) : Bool := containsList hay.data needle.data

/-- Count of ASCII letters in a string, modelling `sum(ch.isalpha() ...)`. -/
def countAlpha (s : String) : Nat := (s.data.filter Char.isAlpha).length

/-- Count of ASCII digits in a string, modelling `sum(ch.isdigit() ...)`. -/
def countDigit (s : String) : Nat := (s.data.filter Char.isDigit).length

/-- Translation of `COMMON_DIGIT_FIXES` / `_normalize_digits`: map the OCR
confusion characters O, o, I, l, S, B to digits. -/
def normalizeDigits (s : String) : String :=
  String.mk (s.data.map (fun c =>
    if c = 'O' ∨ c = 'o' then '0'
    else if c = 'I' ∨ c = 'l' then '1'
    else if c = 'S' then '5'
    else if c = 'B' then '8'
    else c))

/-- Split a character list into maximal whitespace-free groups. -/
def wordsOfChars (cs : List Char) : List (List Char) :=
  (cs.foldr (fun c acc =>
    if c.isWhitespace then [] :: acc
    else match acc with
      | [] => [[c]]
      | w :: ws => (c :: w) :: ws) []).filter (fun w => ¬ w.isEmpty)

/-- Collapse every whitespace run to a single space and strip the ends,
modelling `re.sub(r"\s+", " ", line).strip()`. -/
def compactWs (s : String) : String :=
  String.intercalate " " ((wordsOfChars s.data).map String.mk)

/-- Structural splitter on a separator character, modelling Python
`str.split(sep)` (empty groups preserved). -/
def splitOnChar (sep : Char) (s : String) : List String :=
  (s.data.foldr (fun c acc =>
    if c = sep then [] :: acc
    else match acc with
      | [] => [[c]]
      | g :: gs => (c :: g) :: gs) [[]]).map String.mk

/-- Translation of `_normalize_lines`: split into lines, compact whitespace,
drop empty lines. -/
def normalizeLines (text : String) : List String :=
  ((splitOnChar '\n' text).map compactWs).filter (fun l => l ≠ "")

/-- Translation of `_normalize_for_match`: lowercase and keep only the ASCII
characters a-z and 0-9. -/
def normalizeForMatch (s : String) : String :=
  String.mk ((lowerStr s).data.filter (fun c => c.isDigit || c.isLower))

/-- Translation of `_dedupe_lines` (inner loop with its `seen` set). -/
def dedupeAux (seen : List String) : List String → List String
  | [] => []
  | l :: rest =>
    let k := normalizeForMatch l
    if k = "" || seen.contains k then dedupeAux seen rest
    else l :: dedupeAux (k :: seen) rest

/-- Translation of `_dedupe_lines`: keep the first line for every normalized
key, dropping lines whose key is empty or already seen. -/
def dedupeLines (lines : List String) : List String := dedupeAux [] lines

/-- Python slicing `s[:n]`: take the first `n` characters. -/
def takeChars (s : String) (n : Nat) : String := String.mk (s.data.take n)

/-- Python `str.strip`: drop whitespace from both ends. -/
def stripStr (s : String) : String :=
  String.mk ((s.data.dropWhile Char.isWhitespace).reverse.dropWhile Char.isWhitespace |>.reverse)

/-! ## Line-confidence lookup (`_build_line_confidence_map`, `_line_confidence`) -/

/-- One recognized OCR line with its confidence, as produced by the engine
adapter (`_ocr_with_confidence` output entries). -/
structure OcrLine where
  text : String
  confidence : ℚ
  deriving DecidableEq, Repr

/-- Insertion-ordered map update modelling `mapping[key] = conf` on a Python
dict: overwrite in place if the key exists, else append. -/
def setKey (m : List (String × ℚ)) (k : String) (v : ℚ) : List (String × ℚ) :=
  if m.any (fun p => p.1 = k) then m.map (fun p => if p.1 = k then (k, v) else p)
  else m ++ [(k, v)]

/-- Translation of `_build_line_confidence_map`: normalized line text mapped to
the line confidence, skipping lines whose stripped text is empty. -/
def buildLineConfidenceMap (lines : List OcrLine) : List (String × ℚ) :=
  lines.foldl (fun m l =>
    let text := stripStr l.text
    if text = "" then m else setKey m (normalizeForMatch text) l.confidence) []

/-- Translation of `_line_confidence`: exact normalized-key lookup with a
substring fallback in insertion order, defaulting to 0. -/
def lineConfidence (line : String) (m : List (String × ℚ)) : ℚ :=
  if m.isEmpty then 0
  else
    let n := normalizeForMatch line
    if n = "" then 0
    else
      match m.find? (fun p => p.1 = n) with
      | some p => p.2
      | none =>
        match m.find? (fun p => containsStr p.1 n || containsStr n p.1) with
        | some p => p.2
        | none => 0

/-! ## Amount-token extraction (`AMOUNT_TOKEN_PATTERN`, `_extract_amount_candidates`) -/

/-- One amount token found on a line: its value, whether it carried a trailing
percent sign, whether it carried a currency mark, and its start offset. -/
structure AmountCand where
  value : ℚ
  isPercent : Bool
  hasCurrency : Bool
  start : Nat
  deriving DecidableEq, Repr

/-- Numeric value of a digit run. -/
def digitsToNat (cs : List Char) : Nat :=
  cs.foldl (fun n c => 10 * n + (c.toNat - 48)) 0

/-- Translation of `re.sub(r"(\d),(\d{2})(?!\d)", r"\1.\2", s)`: rewrite a
decimal comma between a digit and exactly two trailing digits into a dot,
scanning left to right over non-overlapping matches. -/
def commaFix : List Char → List Char
  | [] => []
  | [c] => [c]
  | [c, d] => [c, d]
  | [c, d, e] => [c, d, e]
  | c1 :: c2 :: c3 :: c4 :: rest =>
    if c1.isDigit ∧ c2 = ',' ∧ c3.isDigit ∧ c4.isDigit ∧
        (rest.head?.map Char.isDigit).getD false = false then
      c1 :: '.' :: c3 :: c4 :: commaFix rest
    else c1 :: commaFix (c2 :: c3 :: c4 :: rest)

/-- Result of attempting `AMOUNT_TOKEN_PATTERN` at one position: the candidate
fields (except the start offset) and the number of consumed characters. -/
structure AmountMatch where
  value : ℚ
  isPercent : Bool
  hasCurrency : Bool
  consumed : Nat
  deriving Repr

/-- Deterministic matcher for `(\$?\s*[0-9]+(?:\.[0-9]{2}))(\s*%)?` anchored at
the head of `cs` (greedy quantifiers; no backtracking is needed because the
sub-patterns have disjoint character classes). -/
def matchAmountAt (cs : List Char) : Option AmountMatch :=
  let (cur, afterCur) : Bool × List Char :=
    match cs with
    | '$' :: rest => (true, rest)
    | _ => (false, cs)
  let ws := afterCur.takeWhile Char.isWhitespace
  let afterWs := afterCur.drop ws.length
  let digs := afterWs.takeWhile Char.isDigit
  if digs.isEmpty then none
  else
    match afterWs.drop digs.length with
    | '.' :: d1 :: d2 :: rest2 =>
      if d1.isDigit ∧ d2.isDigit then
        let value : ℚ := (digitsToNat digs : ℚ) + (10 * (d1.toNat - 48) + (d2.toNat - 48) : ℕ) / 100
        let base := (if cur then 1 else 0) + ws.length + digs.length + 3
        let ws2 := rest2.takeWhile Char.isWhitespace
        match rest2.drop ws2.length with
        | '%' :: _ =>
          some { value := value, isPercent := true, hasCurrency := cur,
                 consumed := base + ws2.length + 1 }
        | _ =>
          some { value := value, isPercent := false, hasCurrency := cur, consumed := base }
      else none
    | _ => none

/-- Scanner for all non-overlapping matches of `AMOUNT_TOKEN_PATTERN`, left to
right, modelling `finditer`; `fuel` bounds the recursion and is instantiated
with the string length (every step consumes at least one character). -/
def scanAmountsAux : Nat → List Char → Nat → List AmountCand
  | 0, _, _ => []
  | _ + 1, [], _ => []
  | fuel + 1, c :: rest, pos =>
    match matchAmountAt (c :: rest) with
    | some m =>
      { value := m.value, isPercent := m.isPercent, hasCurrency := m.hasCurrency, start := pos }
        :: scanAmountsAux fuel ((c :: rest).drop m.consumed) (pos + m.consumed)
    | none => scanAmountsAux fuel rest (pos + 1)

/-- Translation of `_extract_amount_candidates`: normalize digit confusions,
fix decimal commas, then scan for amount tokens (the `value < 0` filter of the
source is vacuous since parsed digit runs are non-negative). -/
def extractAmountCandidates (line : String) : List AmountCand :=
  let normalized := commaFix (normalizeDigits line).data
  scanAmountsAux (normalized.length + 1) normalized 0

/-- First maximum of a non-empty candidate list under a rational key,
modelling Python `max(..., key=...)` (first maximal element wins). -/
def pickMaxBy (key : AmountCand → ℚ) (c : AmountCand) (cs : List AmountCand) : AmountCand :=
  cs.foldl (fun b x => if key x > key b then x else b) c

/-- Translation of `_extract_amount_from_line` with its two preference flags:
prefer non-percent tokens, then currency-marked tokens, then pick the
rightmost or the largest token. -/
def extractAmountFromLine (line : String) (preferNonPercent preferRightmost : Bool) :
    Option ℚ :=
  match extractAmountCandidates line with
  | [] => none
  | c :: cs =>
    let all := c :: cs
    let f1 := if preferNonPercent then
        (let np := all.filter (fun x => !x.isPercent)
         if np.isEmpty then all else np)
      else all
    let f2 := (let cc := f1.filter (fun x => x.hasCurrency)
               if cc.isEmpty then f1 else cc)
    match f2 with
    | [] => none
    | d :: ds =>
      if preferRightmost then some (pickMaxBy (fun x => (x.start : ℚ)) d ds).value
      else some (pickMaxBy (fun x => x.value) d ds).value

/-! ## Date extraction (`DATE_PATTERNS`, `parse_date`, `_safe_parse_date`) -/

/-- A calendar date as produced by the external date parser. -/
structure DateD where
  year : Nat
  month : Nat
  day : Nat
  deriving DecidableEq, Repr

/-- Word character for the regex `\b` boundary (`[a-zA-Z0-9_]`). -/
def isWordChar (c : Char) : Bool := c.isAlpha || c.isDigit || c = '_'

/-- Matcher for the numeric D-D-Y date pattern (1-2 digits, slash or dash, 1-2 digits, slash or dash, 2-4 digits, boundary) anchored at the head
(the leading `\b` is checked by the scanner); returns the consumed length.
Each digit group must swallow its whole digit run, since a shorter take would
leave a digit where a separator or the boundary is required. -/
def matchDMY (cs : List Char) : Option Nat :=
  let r1 := cs.takeWhile Char.isDigit
  if 1 ≤ r1.length ∧ r1.length ≤ 2 then
    match cs.drop r1.length with
    | s1 :: rest1 =>
      if s1 = '/' ∨ s1 = '-' then
        let r2 := rest1.takeWhile Char.isDigit
        if 1 ≤ r2.length ∧ r2.length ≤ 2 then
          match rest1.drop r2.length with
          | s2 :: rest2 =>
            if s2 = '/' ∨ s2 = '-' then
              let r3 := rest2.takeWhile Char.isDigit
              if 2 ≤ r3.length ∧ r3.length ≤ 4 ∧
                  (rest2.drop r3.length |>.head?.map isWordChar).getD false = false then
                some (r1.length + 1 + r2.length + 1 + r3.length)
              else none
            else none
          | [] => none
        else none
      else none
    | [] => none
  else none

/-- Matcher for the numeric Y-M-D date pattern (4 digits, then two 1-2 digit groups with slash or dash separators, boundary) anchored at the head. -/
def matchYMD (cs : List Char) : Option Nat :=
  let r1 := cs.takeWhile Char.isDigit
  if r1.length = 4 then
    match cs.drop r1.length with
    | s1 :: rest1 =>
      if s1 = '/' ∨ s1 = '-' then
        let r2 := rest1.takeWhile Char.isDigit
        if 1 ≤ r2.length ∧ r2.length ≤ 2 then
          match rest1.drop r2.length with
          | s2 :: rest2 =>
            if s2 = '/' ∨ s2 = '-' then
              let r3 := rest2.takeWhile Char.isDigit
              if 1 ≤ r3.length ∧ r3.length ≤ 2 ∧
                  (rest2.drop r3.length |>.head?.map isWordChar).getD false = false then
                some (r1.length + 1 + r2.length + 1 + r3.length)
              else none
            else none
          | [] => none
        else none
      else none
    | [] => none
  else none

/-- The three-letter month stems of the month-name date pattern (`sept` is
covered by the `sep` stem plus `[a-z]*`). -/
def monthStems : List String :=
  ["jan", "feb", "mar", "apr", "may", "jun", "jul", "aug", "sep", "oct", "nov", "dec"]

/-- Matcher for the case-insensitive
`(?:jan|...|dec)[a-z]*\s+\d{1,2},?\s+\d{2,4}\b` pattern anchored at the head:
month stem, greedy letter tail, whitespace, a 1-2 digit day, an optional comma
that must be followed by whitespace, and a 2-4 digit year at a boundary. -/
def matchMonthDate (cs : List Char) : Option Nat :=
  let stem := (cs.take 3).map Char.toLower
  if monthStems.any (fun m => m.data = stem) then
    let letters := (cs.drop 3).takeWhile Char.isAlpha
    let nameLen := 3 + letters.length
    let ws1 := (cs.drop nameLen).takeWhile Char.isWhitespace
    if ws1.isEmpty then none
    else
      let afterWs1 := cs.drop (nameLen + ws1.length)
      let day := afterWs1.takeWhile Char.isDigit
      if 1 ≤ day.length ∧ day.length ≤ 2 then
        let afterDay := afterWs1.drop day.length
        let commaSkip : Option Nat :=
          match afterDay with
          | ',' :: restc =>
            let ws2 := restc.takeWhile Char.isWhitespace
            if ws2.isEmpty then none else some (1 + ws2.length)
          | _ =>
            let ws2 := afterDay.takeWhile Char.isWhitespace
            if ws2.isEmpty then none else some ws2.length
        match commaSkip with
        | none => none
        | some skip =>
          let afterSep := afterDay.drop skip
          let yr := afterSep.takeWhile Char.isDigit
          if 2 ≤ yr.length ∧ yr.length ≤ 4 ∧
              (afterSep.drop yr.length |>.head?.map isWordChar).getD false = false then
            some (nameLen + ws1.length + day.length + skip + yr.length)
          else none
      else none
  else none

/-- Left-to-right scan for all non-overlapping matches of a boundary-anchored
pattern, modelling `re.findall`; `prev` carries the previous character for the
leading `\b` test, `fuel` is instantiated with the string length. -/
def scanDatesAux (m : List Char → Option Nat) : Nat → Option Char → List Char → List String
  | 0, _, _ => []
  | _ + 1, _, [] => []
  | fuel + 1, prev, c :: rest =>
    let boundaryOk := match prev with
      | none => true
      | some p => !(isWordChar p)
    if boundaryOk then
      match m (c :: rest) with
      | some n =>
        let matched := (c :: rest).take n
        String.mk matched :: scanDatesAux m fuel (some (matched.getLastD c)) ((c :: rest).drop n)
      | none => scanDatesAux m fuel (some c) rest
    else scanDatesAux m fuel (some c) rest

/-- All matches of one date pattern in a string. -/
def findallDate (m : List Char → Option Nat) (s : String) : List String :=
  scanDatesAux m (s.data.length + 1) none s.data

/-- Translation of `_safe_parse_date`: delegate to the external parser and
reject any result whose year lies outside 2000-2100. -/
def safeParseDate (oracle : String → Option DateD) (value : String) : Option DateD :=
  match oracle value with
  | none => none
  | some d => if d.year < 2000 ∨ 2100 < d.year then none else some d

/-- The per-line step of `parse_date`: normalize digit confusions, try the
three regex families in order on the normalized line, then a fuzzy whole-line
parse. -/
def parseDateLine (oracle : String → Option DateD) (line : String) : Option DateD :=
  let cl := normalizeDigits line
  match (findallDate matchDMY cl ++ findallDate matchYMD cl
      ++ findallDate matchMonthDate cl).findSome? (safeParseDate oracle) with
  | some d => some d
  | none => safeParseDate oracle cl

/-- The date-context keywords of `parse_date`. -/
def hasDateKeyword (line : String) : Bool :=
  ["date", "purchase", "transaction", "time"].any (fun k => containsStr (lowerStr line) k)

/-- Sort key of `parse_date`: 0 for keyword lines, 1 otherwise. -/
def dateSortKey (line : String) : Nat := if hasDateKeyword line then 0 else 1

/-- Stable insertion of an element into a key-sorted list: the element goes
before the first entry of equal or larger key (elements to its right came
later in the original list). -/
def insertByKey (key : String → Nat) (x : String) : List String → List String
  | [] => [x]
  | y :: ys => if key x ≤ key y then x :: y :: ys else y :: insertByKey key x ys

/-- Stable insertion sort by key, modelling Python's stable `sorted`. -/
def sortByKey (key : String → Nat) : List String → List String
  | [] => []
  | x :: xs => insertByKey key x (sortByKey key xs)

/-- Loop of `parse_date` over the ranked lines: first successful parse wins,
with the confidence of the (un-normalized) source line. -/
def parseDateAux (oracle : String → Option DateD) (confs : List (String × ℚ)) :
    List String → Option DateD × ℚ
  | [] => (none, 0)
  | l :: rest =>
    match parseDateLine oracle l with
    | some d => (some d, lineConfidence l confs)
    | none => parseDateAux oracle confs rest

/-- Translation of `parse_date`: rank keyword lines first (stable), then scan
for the first parseable date. -/
def parseDate (oracle : String → Option DateD) (lines : List String)
    (confs : List (String × ℚ)) : Option DateD × ℚ :=
  parseDateAux oracle confs (sortByKey dateSortKey lines)

/-! ## Merchant extraction (`parse_merchant`) -/

/-- The merchant blacklist tokens of `parse_merchant`. -/
def merchantBlacklist : List String :=
  ["invoice", "receipt", "order", "store", "thank", "date", "time", "cashier",
   "join", "earn", "points", "rewards"]

/-- Translation of `re.sub(r"\s+[0-9]{4,8}$", "", line).strip()`: remove a
trailing whitespace run followed by 4-8 digits at the end of the line (a
longer trailing digit run cannot match, since the character before the
matched digits must be whitespace), then strip. -/
def stripStoreNumber (line : String) : String :=
  let rev := line.data.reverse
  let digs := rev.takeWhile Char.isDigit
  if 4 ≤ digs.length ∧ digs.length ≤ 8 then
    let rest1 := rev.drop digs.length
    let ws := rest1.takeWhile Char.isWhitespace
    if ws.isEmpty then stripStr line
    else stripStr (String.mk (rest1.drop ws.length).reverse)
  else stripStr line

/-- Loop of `parse_merchant` over the first 12 candidate lines, translated
branch by branch: blacklist skip, fewer-than-3-letters skip, more-than-8-digits
skip, store-number strip, more-than-4-digits skip, else accept. -/
def parseMerchantAux (confs : List (String × ℚ)) : List String → Option (String × ℚ)
  | [] => none
  | line :: rest =>
    let low := lowerStr line
    if merchantBlacklist.any (fun t => containsStr low t) then parseMerchantAux confs rest
    else if countAlpha line < 3 then parseMerchantAux confs rest
    else if 8 < countDigit line then parseMerchantAux confs rest
    else
      let candidate := stripStoreNumber line
      if 4 < countDigit line ∧ candidate ≠ "" ∧ 3 ≤ countAlpha candidate then
        some (takeChars candidate 200, lineConfidence line confs)
      else if 4 < countDigit line then parseMerchantAux confs rest
      else some (takeChars line 200, lineConfidence line confs)

/-- Translation of `parse_merchant`: first qualifying line among the first 12
wins; otherwise fall back to the first candidate line, truncated to 200
characters (the fallback confidence is looked up on the truncated text). -/
def parseMerchant (lines : List String) (confs : List (String × ℚ)) :
    Option String × ℚ :=
  match lines with
  | [] => (none, 0)
  | first :: _ =>
    match parseMerchantAux confs (lines.take 12) with
    | some (m, c) => (some m, c)
    | none =>
      let fallback := takeChars first 200
      (some fallback, lineConfidence fallback confs)

/-! ## Sales-tax and total extraction (`parse_sales_tax`, `parse_total`) -/

/-- The tax keywords shared by `parse_sales_tax` and `parse_total`. -/
def taxKeywords : List String := ["sales tax", "state tax", "tax", "hst", "gst", "vat"]

/-- First maximal element of a (amount, confidence, score) candidate list by
score, modelling Python `max(..., key=lambda item: item[2])`. -/
def pickBest (l : List (ℚ × ℚ × ℚ)) : Option (ℚ × ℚ × ℚ) :=
  match l with
  | [] => none
  | x :: xs => some (xs.foldl (fun b y => if y.2.2 > b.2.2 then y else b) x)

/-- Candidate list of `parse_sales_tax`: every keyword line with an extractable
amount, scored by line confidence plus the proximity boost. -/
def salesTaxCandidates (lines : List String) (confs : List (String × ℚ)) :
    List (ℚ × ℚ × ℚ) :=
  lines.enum.filterMap (fun p =>
    if taxKeywords.any (fun k => containsStr (lowerStr p.2) k) then
      match extractAmountFromLine p.2 true true with
      | some a =>
        let conf := lineConfidence p.2 confs
        some (a, conf, conf + max 0 (12 - (p.1 : ℚ) * (4/10)))
      | none => none
    else none)

/-- Translation of `parse_sales_tax`: highest-scoring keyword-line amount. -/
def parseSalesTax (lines : List String) (confs : List (String × ℚ)) :
    Option ℚ × ℚ :=
  match pickBest (salesTaxCandidates lines confs) with
  | none => (none, 0)
  | some (a, c, _) => (some a, c)

/-- Translation of `_find_keyword_amount`: first keyword line with an
extractable (rightmost-preferring) amount. -/
def findKeywordAmount (lines : List String) (kws : List String) : Option ℚ :=
  lines.findSome? (fun line =>
    if kws.any (fun k => containsStr (lowerStr line) k) then
      extractAmountFromLine line true true
    else none)

/-- The priority keywords of `parse_total`. -/
def totalPriorityKeywords : List String := ["grand total", "amount due", "balance due", "total"]

/-- The ignore keywords of `parse_total`. -/
def totalIgnoreKeywords : List String := ["subtotal", "sub total", "tax", "change", "tender", "discount"]

/-- Candidate list of `parse_total`: the reversed lines, windowed to the first
80, each scored by line confidence, keyword bonuses/penalties, a proximity
bonus, and a subtotal+tax cross-check bonus. -/
def totalCandidates (lines : List String) (confs : List (String × ℚ)) :
    List (ℚ × ℚ × ℚ) :=
  let rev := lines.reverse
  let subtotal := findKeywordAmount rev ["subtotal", "sub total"]
  let tax := findKeywordAmount rev taxKeywords
  (rev.take 80).enum.filterMap (fun p =>
    match extractAmountFromLine p.2 true false with
    | none => none
    | some amount =>
      let low := lowerStr p.2
      let conf := lineConfidence p.2 confs
      let s1 := conf + (if totalPriorityKeywords.any (fun k => containsStr low k) then 35 else 0)
      let s2 := s1 - (if totalIgnoreKeywords.any (fun k => containsStr low k) then 18 else 0)
      let s3 := s2 + max 0 (14 - (p.1 : ℚ) * (6/10))
      let s4 := s3 + (match subtotal, tax with
        | some sv, some tv =>
          if |sv + tv - amount| ≤ 3/100 then 28
          else if |sv + tv - amount| ≤ 2/10 then 8
          else 0
        | _, _ => 0)
      some (amount, conf, s4))

/-- Translation of `parse_total`: highest-scoring candidate from the reversed,
windowed lines. -/
def parseTotal (lines : List String) (confs : List (String × ℚ)) :
    Option ℚ × ℚ :=
  match pickBest (totalCandidates lines confs) with
  | none => (none, 0)
  | some (a, c, _) => (some a, c)

/-! ## Tax guardrail and subtotal fallback (`extract_receipt_fields` lines 307-320) -/

/-- Translation of the tax guardrail of `extract_receipt_fields` (first half of
the cross-validation block): discard a tax that is negative or exceeds 25
percent of the total. -/
def taxGuard (tax0 : Option ℚ) (conf0 : ℚ) (total : Option ℚ) : Option ℚ × ℚ :=
  match tax0, total with
  | some t, some tot =>
    if t < 0 ∨ tot * (25/100) < t then (none, 0) else (some t, conf0)
  | _, _ => (tax0, conf0)

/-- Translation of the subtotal fallback of `extract_receipt_fields` (second
half of the cross-validation block): if no tax remains, adopt
`total - subtotal` when it lies in [0, 25 percent of total], raising the
confidence to at least 40. -/
def taxFallback (g : Option ℚ × ℚ) (subtotal : Option ℚ) (total : Option ℚ) :
    Option ℚ × ℚ :=
  match g.1, subtotal, total with
  | none, some s, some tot =>
    if 0 ≤ tot - s ∧ tot - s ≤ tot * (25/100) then (some (tot - s), max g.2 40)
    else (none, g.2)
  | _, _, _ => g

/-- The tax cross-validation block of `extract_receipt_fields`: guardrail, then
subtotal fallback. -/
def taxAdjust (tax0 : Option ℚ) (conf0 : ℚ) (total : Option ℚ) (subtotal : Option ℚ) :
    Option ℚ × ℚ :=
  taxFallback (taxGuard tax0 conf0 total) subtotal total

/-! ## The field-extraction pipeline (`extract_receipt_fields`) -/

/-- The OCR result dictionary produced by `run_ocr` / `run_ocr_pdf` (for the
PDF path the bottom-numbers entries are absent and default to empty). -/
structure OcrResult where
  text : String
  lines : List OcrLine
  avgConfidence : ℚ
  topText : String
  topLines : List OcrLine
  topConfidence : ℚ
  bottomText : String
  bottomLines : List OcrLine
  bottomConfidence : ℚ
  bottomNumbersText : String
  bottomNumbersLines : List OcrLine
  bottomNumbersConfidence : ℚ
  deriving DecidableEq, Repr

/-- The structured extraction result of `extract_receipt_fields`. -/
structure Extracted where
  merchant : Option String
  purchaseDate : Option DateD
  totalAmount : Option ℚ
  salesTaxAmount : Option ℚ
  rawOcrText : String
  extractionConfidence : ℚ
  needsReview : Bool
  deriving DecidableEq, Repr

/-- The normalized top-region lines of an OCR result. -/
def extrTopLines (ocr : OcrResult) : List String := normalizeLines ocr.topText

/-- The de-duplicated union of top, main, bottom and bottom-numbers lines,
in that order (`combined_lines` in `extract_receipt_fields`). -/
def extrCombined (ocr : OcrResult) : List String :=
  dedupeLines (extrTopLines ocr ++ normalizeLines ocr.text
    ++ normalizeLines ocr.bottomText ++ normalizeLines ocr.bottomNumbersText)

/-- The line-confidence map of `extract_receipt_fields`, built over all four
per-region line lists. -/
def extrConfMap (ocr : OcrResult) : List (String × ℚ) :=
  buildLineConfidenceMap
    (ocr.lines ++ ocr.topLines ++ ocr.bottomLines ++ ocr.bottomNumbersLines)

/-- The candidate lines handed to the merchant and date parsers
(`top_lines + combined_lines`). -/
def extrFieldLines (ocr : OcrResult) : List String := extrTopLines ocr ++ extrCombined ocr

/-- The candidate lines handed to the total and tax parsers
(`bottom_lines + combined_lines`). -/
def extrAmountLines (ocr : OcrResult) : List String :=
  normalizeLines ocr.bottomText ++ extrCombined ocr

/-- The merchant parse of the pipeline. -/
def extrMerchant (ocr : OcrResult) : Option String × ℚ :=
  parseMerchant (extrFieldLines ocr) (extrConfMap ocr)

/-- The date parse of the pipeline. -/
def extrDate (oracle : String → Option DateD) (ocr : OcrResult) : Option DateD × ℚ :=
  parseDate oracle (extrFieldLines ocr) (extrConfMap ocr)

/-- The total parse of the pipeline. -/
def extrTotal (ocr : OcrResult) : Option ℚ × ℚ :=
  parseTotal (extrAmountLines ocr) (extrConfMap ocr)

/-- The sales-tax parse of the pipeline, before the cross-validation block. -/
def extrTax (ocr : OcrResult) : Option ℚ × ℚ :=
  parseSalesTax (extrAmountLines ocr) (extrConfMap ocr)

/-- The subtotal-keyword amount used by the fallback branch of the
cross-validation block. -/
def extrSubtotal (ocr : OcrResult) : Option ℚ :=
  findKeywordAmount
    (normalizeLines (String.intercalate "\n" (extrAmountLines ocr)))
    ["subtotal", "sub total"]

/-- The sales tax and its confidence after the cross-validation block. -/
def extrTaxAdj (ocr : OcrResult) : Option ℚ × ℚ :=
  taxAdjust (extrTax ocr).1 (extrTax ocr).2 (extrTotal ocr).1 (extrSubtotal ocr)

/-- The best pass confidence handed to the aggregator:
`max(avg_confidence, top_confidence, bottom_confidence)`. -/
def extrPassConf (ocr : OcrResult) : ℚ :=
  max ocr.avgConfidence (max ocr.topConfidence ocr.bottomConfidence)

/-- Translation of `extract_receipt_fields`: normalize and de-duplicate the
region line lists, run the four field parsers, apply the tax guardrail and
subtotal fallback, and aggregate the confidence. -/
def extractReceiptFields (oracle : String → Option DateD) (ocr : OcrResult) : Extracted :=
  let conf := computeOverallConfidence (extrPassConf ocr)
    (extrMerchant ocr).2 (extrDate oracle ocr).2 (extrTotal ocr).2 (extrTaxAdj ocr).2
    (extrTotal ocr).1.isSome (extrDate oracle ocr).1.isSome (extrTaxAdj ocr).1.isSome
  { merchant := (extrMerchant ocr).1
    purchaseDate := (extrDate oracle ocr).1
    totalAmount := (extrTotal ocr).1
    salesTaxAmount := (extrTaxAdj ocr).1
    rawOcrText := String.intercalate "\n"
      (dedupeLines (extrTopLines ocr ++ normalizeLines ocr.text ++ normalizeLines ocr.bottomText))
    extractionConfidence := conf
    needsReview := decide (conf < 78) }

/-- Whether a string is a non-empty all-digit numeral. -/
def isNatString (s : String) : Bool := !s.data.isEmpty && s.data.all Char.isDigit

/-- Modelled from the spec: the external fuzzy date parser (`dateutil`,
consumed by `_safe_parse_date` but not part of this repository) restricted to
slash-separated all-numeric month/day/year dates, its documented behaviour for
such strings under `dayfirst=False`; every concrete theorem below consults it
only on strings of that shape or on strings it rejects. -/
def dateutilM (s : String) : Option DateD :=
  match splitOnChar '/' s with
  | [a, b, c] =>
    if isNatString a ∧ isNatString b ∧ isNatString c then
      some { year := digitsToNat c.data, month := digitsToNat a.data, day := digitsToNat b.data }
    else none
  | _ => none

/-! ## Specification-side definitions used for refinement comparisons -/

/-- The merchant line classifier exactly as the specification words it:
blacklist and letter-count skips, then for a line with more than 4 digits use
the stripped store-number text when it keeps at least 3 letters, otherwise
skip; otherwise accept the line; truncation to 200 characters. -/
def merchantQualifySpec (line : String) : Option String :=
  if merchantBlacklist.any (fun t => containsStr (lowerStr line) t) then none
  else if countAlpha line < 3 then none
  else if 4 < countDigit line ∧ stripStoreNumber line ≠ "" ∧
      3 ≤ countAlpha (stripStoreNumber line) then
    some (takeChars (stripStoreNumber line) 200)
  else if 4 < countDigit line then none
  else some (takeChars line 200)

/-- The merchant line classifier amended with the source's more-than-8-digits
skip, which runs before the store-number strip is considered. -/
def merchantQualifyAmended (line : String) : Option String :=
  if merchantBlacklist.any (fun t => containsStr (lowerStr line) t) then none
  else if countAlpha line < 3 then none
  else if 8 < countDigit line then none
  else if 4 < countDigit line ∧ stripStoreNumber line ≠ "" ∧
      3 ≤ countAlpha (stripStoreNumber line) then
    some (takeChars (stripStoreNumber line) 200)
  else if 4 < countDigit line then none
  else some (takeChars line 200)

/-- Merchant selection described as a first-match search over the first 12
candidate lines with a given line classifier, with the first-line fallback. -/
def parseMerchantWith (qualify : String → Option String) (lines : List String)
    (confs : List (String × ℚ)) : Option String × ℚ :=
  match lines with
  | [] => (none, 0)
  | first :: _ =>
    match (lines.take 12).findSome?
        (fun l => (qualify l).map (fun nm => (nm, lineConfidence l confs))) with
    | some (nm, c) => (some nm, c)
    | none => (some (takeChars first 200), lineConfidence (takeChars first 200) confs)

/-- Merchant selection exactly as the specification words it. -/
def parseMerchantSpec : List String → List (String × ℚ) → Option String × ℚ :=
  parseMerchantWith merchantQualifySpec

/-- Merchant selection as the specification words it, amended with the
more-than-8-digits skip. -/
def parseMerchantAmended : List String → List (String × ℚ) → Option String × ℚ :=
  parseMerchantWith merchantQualifyAmended

/-! ## Concrete inputs used by counterexamples and witnesses -/

/-- Helper to build an OCR result with only a main region. -/
def mkSimpleOcr (text : String) (ls : List OcrLine) (avg : ℚ) : OcrResult :=
  { text := text, lines := ls, avgConfidence := avg,
    topText := "", topLines := [], topConfidence := 0,
    bottomText := "", bottomLines := [], bottomConfidence := 0,
    bottomNumbersText := "", bottomNumbersLines := [], bottomNumbersConfidence := 0 }

/-- An input whose sole tax-keyword line is "TAX RATE 8.25%", followed by 80
amount-free filler lines so that the tax line falls outside the 80-line
bottom-up window of `parse_total` and no total is extracted. -/
def receiptC3Lines : List String :=
  "TAX RATE 8.25%" :: (List.range 80).map (fun i => "q" ++ toString i)

/-- OCR result for `receiptC3Lines` (no line confidences). -/
def ocrC3 : OcrResult := mkSimpleOcr (String.intercalate "\n" receiptC3Lines) [] 0

/-- OCR result whose only line is the percent-rate tax line. -/
def ocrC3Single : OcrResult := mkSimpleOcr "TAX RATE 8.25%" [] 0

/-- OCR result refuting the claim that a missing tax forces review: merchant,
date and total are all present at line confidence 95 and there is no tax. -/
def ocrC2 : OcrResult := mkSimpleOcr "MERCHX\nDATE 01/15/2024\nTOTAL 12.99"
  [⟨"MERCHX", 95⟩, ⟨"DATE 01/15/2024", 95⟩, ⟨"TOTAL 12.99", 95⟩] 95

/-- OCR result used as a witness for the amended review claim: a single line
with no amount, so the total is missing. -/
def ocrC2W : OcrResult := mkSimpleOcr "MERCH" [⟨"MERCH", 50⟩] 50

/-- OCR result for the confidence-monotonicity counterexample: the total line
"TOTAL 5.00" has confidence 60 while the amount line "$9.99" has 80. -/
def ocrC8Full : OcrResult := mkSimpleOcr "DATE 01/15/2024\nMERCH\nTOTAL 5.00\n$9.99"
  [⟨"DATE 01/15/2024", 95⟩, ⟨"MERCH", 95⟩, ⟨"TOTAL 5.00", 60⟩, ⟨"$9.99", 80⟩] 95

/-- The same OCR result with the line containing the extracted total removed
and everything else identical. -/
def ocrC8Removed : OcrResult := mkSimpleOcr "DATE 01/15/2024\nMERCH\n$9.99"
  [⟨"DATE 01/15/2024", 95⟩, ⟨"MERCH", 95⟩, ⟨"TOTAL 5.00", 60⟩, ⟨"$9.99", 80⟩] 95

/-- Witness pair for the amended monotonicity claim: removing the only amount
line leaves no total at all. -/
def ocrC8WFull : OcrResult := mkSimpleOcr "MERCH\nTOTAL 5.00"
  [⟨"MERCH", 60⟩, ⟨"TOTAL 5.00", 60⟩] 60

/-- The witness input with the total line removed. -/
def ocrC8WRemoved : OcrResult := mkSimpleOcr "MERCH"
  [⟨"MERCH", 60⟩, ⟨"TOTAL 5.00", 60⟩] 60

/-! ## The ingestion job lifecycle (`app/main.py`) -/

/-- Association-list lookup by key (first match), modelling a primary-key
database lookup. -/
def alookup {κ α : Type} [DecidableEq κ] : List (κ × α) → κ → Option α
  | [], _ => none
  | (k, v) :: rest, i => if k = i then some v else alookup rest i

/-- Association-list update: replace the value at a key in place. -/
def aupdate {κ α : Type} [DecidableEq κ] (l : List (κ × α)) (i : κ) (v : α) :
    List (κ × α) :=
  l.map (fun p => if p.1 = i then (i, v) else p)

/-- An `UploadJob` row (the fields the worker reads or writes). -/
structure JobRec where
  status : String
  originalFilename : String
  storedFilename : String
  contentType : Option String
  receiptId : Option Nat
  errorMessage : Option String
  startedAt : Option Nat
  completedAt : Option Nat
  deriving DecidableEq, Repr

/-- A `Receipt` row as created by `_process_upload_job`. -/
structure ReceiptRec where
  id : Nat
  merchant : Option String
  purchaseDate : Option DateD
  totalAmount : Option ℚ
  salesTaxAmount : Option ℚ
  extractionConfidence : ℚ
  needsReview : Bool
  rawOcrText : String
  deriving DecidableEq, Repr

/-- A `ReceiptImage` row. -/
structure ReceiptImageRec where
  receiptId : Nat
  storedFilename : String
  contentType : Option String
  deriving DecidableEq, Repr

/-- The storage environment of the worker: job and receipt tables, the
merchant table, the blob store keyed by filename, and the receipt id counter;
`B` is the type of blob payloads. -/
structure SysState (B : Type) where
  jobs : List (Nat × JobRec)
  receipts : List ReceiptRec
  images : List ReceiptImageRec
  merchants : List String
  blobs : List (String × B)
  nextReceiptId : Nat

/-- Translation of `_mark_upload_job_failed`: mark the job failed with a
completion timestamp and the error message (or "OCR failed" when empty)
truncated to 2000 characters. -/
def markUploadJobFailed {B : Type} (st : SysState B) (jobId : Nat) (error : String)
    (now : Nat) : SysState B :=
  match alookup st.jobs jobId with
  | none => st
  | some job =>
    let failedJob := { job with
      status := "failed"
      completedAt := some now
      errorMessage := some (takeChars (if error = "" then "OCR failed" else error) 2000) }
    { st with jobs := aupdate st.jobs jobId failedJob }

/-- Translation of `_delete_receipt_image`: remove a blob by name, tolerating
a missing name. -/
def deleteBlob {B : Type} (st : SysState B) (name : String) : SysState B :=
  { st with blobs := st.blobs.filter (fun p => p.1 ≠ name) }

/-- Python `pathlib` suffix: the final dot-segment of a name when the dot is
neither leading nor trailing. -/
def pathSuffix (name : String) : String :=
  match name.data.reverse.findIdx? (fun c => c = '.') with
  | none => ""
  | some r =>
    let i := name.data.length - 1 - r
    if 0 < i ∧ i < name.data.length - 1 then String.mk (name.data.drop i) else ""

/-- Translation of the extension choice of `_save_receipt_image`: lowercase
suffix of the original name, replaced by ".bin" when empty or over-long. -/
def extOf (originalName : String) : String :=
  let ext := lowerStr (pathSuffix originalName)
  if ext = "" ∨ 8 < ext.length then ".bin" else ext

/-- Translation of `_save_receipt_image`'s stored filename. -/
def saveReceiptImageName (receiptId : Nat) (originalName : String) : String :=
  "receipt_" ++ toString receiptId ++ extOf originalName

/-- Translation of `_normalize_merchant`: strip, and map empty to none. -/
def normalizeMerchant (v : Option String) : Option String :=
  match v with
  | none => none
  | some s =>
    if stripStr s = "" then none else some (stripStr s)

/-- The empty OCR result returned by `run_ocr` when no candidate yields any
recognized text (the final fallback dictionary of `run_ocr`). -/
def emptyOcrResult : OcrResult :=
  { text := "", lines := [], avgConfidence := 0,
    topText := "", topLines := [], topConfidence := 0,
    bottomText := "", bottomLines := [], bottomConfidence := 0,
    bottomNumbersText := "", bottomNumbersLines := [], bottomNumbersConfidence := 0 }

/-- Sequence a fallible OCR pass over a page list, stopping at the first
failure (the per-page `run_ocr` loop of `run_ocr_pdf`). -/
def mapExcept {ε α β : Type} (f : α → Except ε β) : List α → Except ε (List β)
  | [] => Except.ok []
  | a :: as =>
    match f a with
    | Except.error e => Except.error e
    | Except.ok b =>
      match mapExcept f as with
      | Except.error e => Except.error e
      | Except.ok bs => Except.ok (b :: bs)

/-- Translation of `run_ocr_pdf`: render up to `MAX_PDF_OCR_PAGES = 4` pages
(the renderer is an external parameter), raise ValueError when no page
renders, else OCR each page, concatenate text and lines, average and round the
per-page confidences, and take top context from the first page and bottom
context from the last (the bottom-numbers entries are absent, hence empty). -/
def runOcrPdf {B : Type} (render : B → List B) (ocrPage : B → Except String OcrResult)
    (pdf : B) : Except String OcrResult :=
  match (render pdf).take 4 with
  | [] => Except.error "PDF contains no renderable pages"
  | p :: ps =>
    match mapExcept ocrPage (p :: ps) with
    | Except.error e => Except.error e
    | Except.ok results =>
      let first := results.headD emptyOcrResult
      let last := results.getLastD emptyOcrResult
      Except.ok
        { text := String.intercalate "\n"
            ((results.map (fun r => r.text)).filter (fun t => t ≠ ""))
          lines := (results.map (fun r => r.lines)).flatten
          avgConfidence := roundQ2 ((results.map (fun r => r.avgConfidence)).sum
            / ((max 1 results.length : ℕ) : ℚ))
          topText := first.topText
          topLines := first.topLines
          topConfidence := first.topConfidence
          bottomText := last.bottomText
          bottomLines := last.bottomLines
          bottomConfidence := last.bottomConfidence
          bottomNumbersText := ""
          bottomNumbersLines := []
          bottomNumbersConfidence := 0 }

/-- Translation of `_process_upload_job`: re-validate the job is still
`queued`/`processing` (else return untouched), mark it `processing` with a
start timestamp, fail it if the staged blob is missing, run the OCR pipeline
(PDF or image path by content type / filename suffix) and the field extractor,
then either persist the Receipt, its image row and the merchant upsert and
mark the job `completed`, or mark the job `failed` with the raised message;
in both of those paths the staged blob is deleted exactly once. -/
def processUploadJob {B : Type} (imgOcr : B → Except String OcrResult)
    (render : B → List B) (oracle : String → Option DateD) (now : Nat)
    (st : SysState B) (jobId : Nat) : SysState B :=
  match alookup st.jobs jobId with
  | none => st
  | some job =>
    if job.status ≠ "queued" ∧ job.status ≠ "processing" then st
    else
      let job1 := { job with
        status := "processing"
        startedAt := some now
        errorMessage := none }
      let st1 : SysState B := { st with jobs := aupdate st.jobs jobId job1 }
      match alookup st1.blobs job.storedFilename with
      | none => markUploadJobFailed st1 jobId "Uploaded file is missing" now
      | some payload =>
        let isPdf := lowerStr (job.contentType.getD "") = "application/pdf"
          ∨ lowerStr (pathSuffix job.storedFilename) = ".pdf"
        match if isPdf then runOcrPdf render imgOcr payload else imgOcr payload with
        | Except.error msg =>
          deleteBlob (markUploadJobFailed st1 jobId msg now) job.storedFilename
        | Except.ok ocr =>
          let ex := extractReceiptFields oracle ocr
          let merchantName := normalizeMerchant ex.merchant
          let rid := st1.nextReceiptId
          let receipt : ReceiptRec := {
            id := rid
            merchant := merchantName
            purchaseDate := ex.purchaseDate
            totalAmount := ex.totalAmount
            salesTaxAmount := ex.salesTaxAmount
            extractionConfidence := ex.extractionConfidence
            needsReview := ex.needsReview
            rawOcrText := ex.rawOcrText }
          let finalName := saveReceiptImageName rid job.originalFilename
          let newImage : ReceiptImageRec := {
            receiptId := rid
            storedFilename := finalName
            contentType := job.contentType }
          let newMerchants := match merchantName with
            | some m =>
              if st1.merchants.any (fun x => lowerStr x = lowerStr m) then st1.merchants
              else st1.merchants ++ [m]
            | none => st1.merchants
          let jobDone := { job1 with
            receiptId := some rid
            status := "completed"
            completedAt := some now
            errorMessage := none }
          let st2 : SysState B := { st1 with
            receipts := st1.receipts ++ [receipt]
            nextReceiptId := rid + 1
            blobs := st1.blobs.filter (fun p => p.1 ≠ finalName) ++ [(finalName, payload)]
            images := st1.images ++ [newImage]
            merchants := newMerchants
            jobs := aupdate st1.jobs jobId jobDone }
          deleteBlob st2 job.storedFilename

/-- Example terminal job for the C9 witness. -/
def jobRecCompleted : JobRec :=
  { status := "completed", originalFilename := "a.png", storedFilename := "u1.png",
    contentType := some "image/png", receiptId := some 1, errorMessage := none,
    startedAt := some 1, completedAt := some 2 }

/-- Example queued PDF job for the C10 witness. -/
def jobRecQueuedPdf : JobRec :=
  { status := "queued", originalFilename := "a.pdf", storedFilename := "u2.pdf",
    contentType := some "application/pdf", receiptId := none, errorMessage := none,
    startedAt := none, completedAt := none }

/-- Example queued image job for the C10 witness. -/
def jobRecQueuedImg : JobRec :=
  { status := "queued", originalFilename := "b.png", storedFilename := "u3.png",
    contentType := some "image/png", receiptId := none, errorMessage := none,
    startedAt := none, completedAt := none }

/-- Example state with one completed job. -/
def sysC9 : SysState Nat :=
  { jobs := [(1, jobRecCompleted)], receipts := [], images := [], merchants := [],
    blobs := [("u1.png", 0)], nextReceiptId := 1 }

/-- Example state with a queued PDF job and a queued image job. -/
def sysC10 : SysState Nat :=
  { jobs := [(2, jobRecQueuedPdf), (3, jobRecQueuedImg)], receipts := [], images := [],
    merchants := [], blobs := [("u2.pdf", 7), ("u3.png", 8)], nextReceiptId := 1 }

theorem rhe_cases (q : ℚ) : rhe q = ⌊q⌋ ∨ rhe q = ⌊q⌋ + 1 := by
  unfold rhe
  split_ifs <;> simp

theorem floor_le_rhe (q : ℚ) : ⌊q⌋ ≤ rhe q := by
  rcases rhe_cases q with h | h <;> omega

theorem rhe_le_floor_add_one (q : ℚ) : rhe q ≤ ⌊q⌋ + 1 := by
  rcases rhe_cases q with h | h <;> omega

theorem rhe_intCast (n : ℤ) : rhe (n : ℚ) = n := by
  unfold rhe
  rw [Int.floor_intCast, sub_self]
  norm_num

theorem rhe_int_le (q : ℚ) (n : ℤ) (h : q ≤ n) : rhe q ≤ n := by
  have hf : ⌊q⌋ ≤ n := by
    have h2 := Int.floor_mono h
    rwa [Int.floor_intCast] at h2
  rcases eq_or_lt_of_le hf with heq | hlt
  · have hq : (n : ℚ) ≤ q := by
      have h2 := Int.floor_le q
      rw [heq] at h2
      exact_mod_cast h2
    have hqn : q = (n : ℚ) := le_antisymm h hq
    rw [hqn, rhe_intCast]
  · have := rhe_le_floor_add_one q
    omega

theorem rhe_int_ge (q : ℚ) (n : ℤ) (h : (n : ℚ) ≤ q) : n ≤ rhe q := by
  have hf : n ≤ ⌊q⌋ := Int.le_floor.mpr (by exact_mod_cast h)
  have := floor_le_rhe q
  omega

theorem rhe_mono {x y : ℚ} (h : x ≤ y) : rhe x ≤ rhe y := by
  rcases lt_or_le ⌊x⌋ ⌊y⌋ with hf | hf
  · have h1 := rhe_le_floor_add_one x
    have h2 := floor_le_rhe y
    omega
  · have hfe : ⌊x⌋ = ⌊y⌋ := le_antisymm (Int.floor_mono h) hf
    unfold rhe
    rw [hfe]
    have hxy : x - (⌊y⌋ : ℚ) ≤ y - (⌊y⌋ : ℚ) := by linarith
    split_ifs <;> first | omega | (exfalso; linarith)

theorem roundQ2_mono {x y : ℚ} (h : x ≤ y) : roundQ2 x ≤ roundQ2 y := by
  unfold roundQ2
  have := rhe_mono (show x * 100 ≤ y * 100 by linarith)
  have hc : ((rhe (x * 100) : ℚ)) ≤ ((rhe (y * 100) : ℚ)) := by exact_mod_cast this
  linarith

theorem roundQ2_le_int (q : ℚ) (n : ℤ) (h : q ≤ n) : roundQ2 q ≤ n := by
  unfold roundQ2
  have : rhe (q * 100) ≤ n * 100 := rhe_int_le _ _ (by push_cast; linarith)
  have hc : ((rhe (q * 100) : ℚ)) ≤ ((n : ℚ) * 100) := by exact_mod_cast this
  linarith

theorem roundQ2_ge_int (q : ℚ) (n : ℤ) (h : (n : ℚ) ≤ q) : (n : ℚ) ≤ roundQ2 q := by
  unfold roundQ2
  have : n * 100 ≤ rhe (q * 100) := rhe_int_ge _ _ (by push_cast; linarith)
  have hc : ((n : ℚ) * 100) ≤ ((rhe (q * 100) : ℚ)) := by exact_mod_cast this
  linarith

theorem roundQ2_intCast (n : ℤ) : roundQ2 (n : ℚ) = n := by
  unfold roundQ2
  have : ((n : ℚ)) * 100 = ((n * 100 : ℤ) : ℚ) := by push_cast; ring
  rw [this, rhe_intCast]
  push_cast
  ring

theorem clamp_round_comm (w : ℚ) :
    max 0 (min 100 (roundQ2 w)) = roundQ2 (max 0 (min 100 w)) := by
  rcases le_total w 0 with h0 | h0
  · have hr : roundQ2 w ≤ 0 := by
      have := roundQ2_le_int w 0 (by exact_mod_cast h0)
      exact_mod_cast this
    have h1 : max 0 (min 100 (roundQ2 w)) = 0 :=
      max_eq_left (le_trans (min_le_right _ _) hr)
    have h2 : max (0 : ℚ) (min 100 w) = 0 :=
      max_eq_left (le_trans (min_le_right _ _) h0)
    rw [h1, h2]
    have := roundQ2_intCast 0
    norm_num at this
    exact this.symm
  · rcases le_total 100 w with h100 | h100
    · have hr : (100 : ℚ) ≤ roundQ2 w := by
        have := roundQ2_ge_int w 100 (by exact_mod_cast h100)
        exact_mod_cast this
      have h1 : max 0 (min 100 (roundQ2 w)) = 100 := by
        rw [min_eq_left hr]
        exact max_eq_right (by norm_num)
      have h2 : max (0 : ℚ) (min 100 w) = 100 := by
        rw [min_eq_left h100]
        exact max_eq_right (by norm_num)
      rw [h1, h2]
      have := roundQ2_intCast 100
      norm_num at this
      exact this.symm
    · have hr0 : (0 : ℚ) ≤ roundQ2 w := by
        have := roundQ2_ge_int w 0 (by exact_mod_cast h0)
        exact_mod_cast this
      have hr100 : roundQ2 w ≤ 100 := by
        have := roundQ2_le_int w 100 (by exact_mod_cast h100)
        exact_mod_cast this
      rw [min_eq_right hr100, max_eq_right hr0, min_eq_right h100, max_eq_right h0]

/-! ## C1: the aggregation formula and the review threshold -/

/-- C1: the aggregated extraction confidence equals the weighted sum
0.32/0.14/0.20/0.22/0.12 of pass and field confidences minus the 20/10/5
missing-field penalties, clamped to [0,100] and rounded to 2 decimals (the
source rounds before clamping, which coincides with the specification's
clamp-then-round reading); and the receipt needs review iff this score is
strictly below 78. -/
theorem confidence_formula_and_review_threshold :
    (∀ p mc dc tc xc : ℚ, ∀ ht hd hx : Bool,
      computeOverallConfidence p mc dc tc xc ht hd hx
        = specOverallConfidence p mc dc tc xc ht hd hx)
    ∧ (∀ oracle ocr,
      ((extractReceiptFields oracle ocr).needsReview = true
        ↔ (extractReceiptFields oracle ocr).extractionConfidence < 78)) := by
  constructor
  · intro p mc dc tc xc ht hd hx
    simp only [computeOverallConfidence, specOverallConfidence]
    exact clamp_round_comm _
  · intro oracle ocr
    have h : (extractReceiptFields oracle ocr).needsReview
        = decide ((extractReceiptFields oracle ocr).extractionConfidence < 78) := rfl
    rw [h, decide_eq_true_eq]

/-! ## C4: the tax guardrail and the subtotal fallback -/

/-- C4: a tax that is negative or exceeds 25 percent of the total is
discarded with confidence 0 (so total 100 with tax candidate 30 yields no
tax); afterwards, if no tax remains but a subtotal and total exist with
total minus subtotal in [0, 25 percent of total], that delta becomes the tax
with confidence at least 40 (so subtotal 9.25, total 10.00 yields tax 0.75
with confidence 40). -/
theorem tax_guardrail_and_subtotal_fallback :
    (∀ t tot c : ℚ, (t < 0 ∨ tot * (25/100) < t) →
      taxAdjust (some t) c (some tot) none = (none, 0))
    ∧ (∀ c : ℚ, taxAdjust (some 30) c (some 100) none = (none, 0))
    ∧ (∀ t tot c s : ℚ, (t < 0 ∨ tot * (25/100) < t) → 0 ≤ tot - s →
      tot - s ≤ tot * (25/100) →
      taxAdjust (some t) c (some tot) (some s) = (some (tot - s), 40))
    ∧ (∀ c s tot : ℚ, 0 ≤ tot - s → tot - s ≤ tot * (25/100) →
      ∃ cf, taxAdjust none c (some tot) (some s) = (some (tot - s), cf) ∧ 40 ≤ cf)
    ∧ taxAdjust none 0 (some 10) (some (37/4)) = (some (3/4), 40) := by
  refine ⟨?_, ?_, ?_, ?_, ?_⟩
  · intro t tot c h
    simp only [taxAdjust, taxGuard, taxFallback, if_pos h]
  · intro c
    have h : (30 : ℚ) < 0 ∨ (100 : ℚ) * (25/100) < 30 := Or.inr (by norm_num)
    simp only [taxAdjust, taxGuard, taxFallback, if_pos h]
  · intro t tot c s h h0 h1
    simp only [taxAdjust, taxGuard, taxFallback, if_pos h, if_pos (And.intro h0 h1)]
    norm_num
  · intro c s tot h0 h1
    refine ⟨max c 40, ?_, le_max_right c 40⟩
    simp only [taxAdjust, taxGuard, taxFallback, if_pos (And.intro h0 h1)]
  · with_unfolding_all decide

/-- Witness for C4: the guardrail discards the oversized tax 30 against total
100, then the fallback adopts total minus subtotal 100 - 80 = 20 with
confidence 40. -/
theorem tax_guardrail_and_subtotal_fallback_witness :
    taxAdjust (some 30) 50 (some 100) (some 80) = (some 20, 40) := by
  have h := tax_guardrail_and_subtotal_fallback.2.2.1 30 100 50 80
    (Or.inr (by norm_num)) (by norm_num) (by norm_num)
  norm_num at h
  exact h

/-! ## C6: merchant selection -/

theorem parseMerchantAux_cons (confs : List (String × ℚ)) (l : String) (rest : List String) :
    parseMerchantAux confs (l :: rest)
      = match merchantQualifyAmended l with
        | some nm => some (nm, lineConfidence l confs)
        | none => parseMerchantAux confs rest := by
  simp only [parseMerchantAux, merchantQualifyAmended]
  split_ifs <;> rfl

theorem parseMerchantAux_eq_findSome (confs : List (String × ℚ)) :
    ∀ ls : List String, parseMerchantAux confs ls
      = ls.findSome? (fun l => (merchantQualifyAmended l).map (fun nm => (nm, lineConfidence l confs)))
  | [] => rfl
  | l :: rest => by
    rw [parseMerchantAux_cons, List.findSome?_cons]
    cases merchantQualifyAmended l with
    | none => simp only [Option.map_none', parseMerchantAux_eq_findSome confs rest]
    | some nm => simp only [Option.map_some']

set_option maxRecDepth 400000 in
/-- Counterexample for C6: the line "ACME 1 2 3 4 5 6789" has 9 digits, so the
source skips it outright even though stripping its trailing 4-digit suffix
would leave 4 letters; the claim's algorithm would return the stripped text
"ACME 1 2 3 4 5", while the code returns the next qualifying line "Zebra". -/
theorem merchant_digit_cap_counterexample :
    parseMerchant ["ACME 1 2 3 4 5 6789", "Zebra"] [] = (some "Zebra", 0)
    ∧ parseMerchantSpec ["ACME 1 2 3 4 5 6789", "Zebra"] [] = (some "ACME 1 2 3 4 5", 0) := by
  with_unfolding_all decide

/-- C6 (amended): merchant selection scans the first 12 candidate lines,
skipping blacklisted lines, lines with fewer than 3 letters, and lines with
more than 8 digits outright; for a line with more than 4 digits (and at most
8), the stripped store-number text is used when it keeps at least 3 letters,
otherwise the line is skipped; the first qualifying line wins, with the
truncated first-line fallback. -/
theorem merchant_selection_amended :
    ∀ (lines : List String) (confs : List (String × ℚ)),
      parseMerchant lines confs = parseMerchantAmended lines confs := by
  intro lines confs
  cases lines with
  | nil => rfl
  | cons first rest =>
    show parseMerchant (first :: rest) confs
      = parseMerchantWith merchantQualifyAmended (first :: rest) confs
    unfold parseMerchant parseMerchantWith
    rw [parseMerchantAux_eq_findSome]

/-! ## C3: percent-suffixed amount tokens -/

set_option maxRecDepth 400000 in
/-- Counterexample for C3: on an input whose only tax-keyword line is
"TAX RATE 8.25%" (with the percent-suffixed 8.25 as its sole amount token) and
with no extractable total, the extractor returns sales tax 8.25, not none:
percent tokens are only deprioritized by `_extract_amount_from_line`, not
excluded, and with no total the guardrail cannot fire. -/
theorem percent_token_counterexample :
    (normalizeLines ocrC3.text).filter
        (fun l => taxKeywords.any (fun k => containsStr (lowerStr l) k))
      = ["TAX RATE 8.25%"]
    ∧ (extractReceiptFields dateutilM ocrC3).totalAmount = none
    ∧ (extractReceiptFields dateutilM ocrC3).salesTaxAmount = some (33/4) := by
  with_unfolding_all decide

set_option maxRecDepth 400000 in
/-- C3 (amended): a percent-suffixed token is deprioritized, not excluded:
when the only tax line is "TAX RATE 8.25%" and no total is extracted, the
extractor yields sales tax 8.25 and the receipt still needs review; when the
same line also supplies the total (8.25), the guardrail then discards the tax
to none. -/
theorem percent_token_deprioritized :
    (extractReceiptFields dateutilM ocrC3).salesTaxAmount = some (33/4)
    ∧ (extractReceiptFields dateutilM ocrC3).totalAmount = none
    ∧ (extractReceiptFields dateutilM ocrC3).needsReview = true
    ∧ extractAmountFromLine "TAX RATE 8.25%" true true = some (33/4)
    ∧ (extractReceiptFields dateutilM ocrC3Single).totalAmount = some (33/4)
    ∧ (extractReceiptFields dateutilM ocrC3Single).salesTaxAmount = none := by
  with_unfolding_all decide

/-! ## C5: total selection -/

theorem pickBest_foldl_mem : ∀ (xs : List (ℚ × ℚ × ℚ)) (b : ℚ × ℚ × ℚ),
    xs.foldl (fun b y => if y.2.2 > b.2.2 then y else b) b = b
      ∨ xs.foldl (fun b y => if y.2.2 > b.2.2 then y else b) b ∈ xs
  | [], _ => Or.inl rfl
  | x :: xs, b => by
    simp only [List.foldl_cons]
    rcases pickBest_foldl_mem xs (if x.2.2 > b.2.2 then x else b) with h | h
    · rw [h]
      split_ifs with hc
      · exact Or.inr (List.mem_cons_self x xs)
      · exact Or.inl rfl
    · exact Or.inr (List.mem_cons_of_mem x h)

theorem pickBest_foldl_ge : ∀ (xs : List (ℚ × ℚ × ℚ)) (b : ℚ × ℚ × ℚ),
    b.2.2 ≤ (xs.foldl (fun b y => if y.2.2 > b.2.2 then y else b) b).2.2
  | [], _ => le_rfl
  | x :: xs, b => by
    simp only [List.foldl_cons]
    split_ifs with hc
    · exact le_trans (le_of_lt hc) (pickBest_foldl_ge xs x)
    · exact pickBest_foldl_ge xs b

theorem pickBest_foldl_ge_mem : ∀ (xs : List (ℚ × ℚ × ℚ)) (b : ℚ × ℚ × ℚ),
    ∀ y ∈ xs, y.2.2 ≤ (xs.foldl (fun b y => if y.2.2 > b.2.2 then y else b) b).2.2
  | [], _ => by intro y hy; cases hy
  | x :: xs, b => by
    intro y hy
    simp only [List.foldl_cons]
    rcases List.mem_cons.mp hy with rfl | h
    · split_ifs with hc
      · exact pickBest_foldl_ge xs y
      · exact le_trans (not_lt.mp hc) (pickBest_foldl_ge xs b)
    · exact pickBest_foldl_ge_mem xs (if x.2.2 > b.2.2 then x else b) y h

theorem pickBest_none_iff (l : List (ℚ × ℚ × ℚ)) : pickBest l = none ↔ l = [] := by
  cases l <;> simp [pickBest]

theorem pickBest_mem {l : List (ℚ × ℚ × ℚ)} {x : ℚ × ℚ × ℚ} (h : pickBest l = some x) :
    x ∈ l := by
  cases l with
  | nil => cases h
  | cons a as =>
    simp only [pickBest, Option.some.injEq] at h
    rcases pickBest_foldl_mem as a with h2 | h2
    · rw [h] at h2
      exact h2 ▸ List.mem_cons_self a as
    · exact List.mem_cons_of_mem a (h ▸ h2)

theorem pickBest_max {l : List (ℚ × ℚ × ℚ)} {x : ℚ × ℚ × ℚ} (h : pickBest l = some x) :
    ∀ y ∈ l, y.2.2 ≤ x.2.2 := by
  cases l with
  | nil => intro y hy; cases hy
  | cons a as =>
    simp only [pickBest, Option.some.injEq] at h
    intro y hy
    rcases List.mem_cons.mp hy with rfl | hm
    · exact h ▸ pickBest_foldl_ge as y
    · exact h ▸ pickBest_foldl_ge_mem as a y hm

theorem forall_enum_snd {α : Type} (l : List α) (P : α → Prop) :
    (∀ p ∈ l.enum, P p.2) ↔ ∀ a ∈ l, P a := by
  constructor
  · intro h a ha
    have ha2 : a ∈ l.enum.map Prod.snd := by rw [List.enum_map_snd]; exact ha
    obtain ⟨p, hp, he⟩ := List.mem_map.mp ha2
    exact he ▸ h p hp
  · intro h p hp
    have : p.2 ∈ l := by
      rw [← List.enum_map_snd l]
      exact List.mem_map_of_mem Prod.snd hp
    exact h _ this

/-- C5: total extraction scans the reversed candidate lines limited to the
last 80 lines (so it returns none exactly when no windowed line yields an
amount under the non-percent/currency-preferring policy), and otherwise it
returns an amount and confidence belonging to a candidate whose score (line
confidence, plus 35 for a priority keyword, minus 18 for an ignore keyword,
plus the proximity bonus, plus the subtotal-plus-tax cross-check bonus, as
built by `totalCandidates`) is maximal among all candidates. -/
theorem parse_total_highest_scoring :
    ∀ (lines : List String) (confs : List (String × ℚ)),
      ((parseTotal lines confs).1 = none ↔
        ∀ l ∈ lines.reverse.take 80, extractAmountFromLine l true false = none)
      ∧ (∀ a c, parseTotal lines confs = (some a, c) →
          ∃ s, (a, c, s) ∈ totalCandidates lines confs
            ∧ ∀ x ∈ totalCandidates lines confs, x.2.2 ≤ s) := by
  intro lines confs
  constructor
  · have h1 : (parseTotal lines confs).1 = none
        ↔ totalCandidates lines confs = [] := by
      unfold parseTotal
      cases hp : pickBest (totalCandidates lines confs) with
      | none => simpa using (pickBest_none_iff _).mp hp
      | some x =>
        simp only [hp]
        constructor
        · intro h; cases h
        · intro h
          rw [h] at hp
          cases hp
    rw [h1]
    unfold totalCandidates
    rw [List.filterMap_eq_nil_iff]
    have h2 : ∀ p : Nat × String,
        (match extractAmountFromLine p.2 true false with
          | none => none
          | some amount => some (amount, lineConfidence p.2 confs,
              lineConfidence p.2 confs
                + (if totalPriorityKeywords.any (fun k => containsStr (lowerStr p.2) k) then 35 else 0)
                - (if totalIgnoreKeywords.any (fun k => containsStr (lowerStr p.2) k) then 18 else 0)
                + max 0 (14 - (p.1 : ℚ) * (6/10))
                + (match findKeywordAmount lines.reverse ["subtotal", "sub total"],
                      findKeywordAmount lines.reverse taxKeywords with
                  | some sv, some tv =>
                    if |sv + tv - amount| ≤ 3/100 then 28
                    else if |sv + tv - amount| ≤ 2/10 then 8
                    else 0
                  | _, _ => 0)) : Option (ℚ × ℚ × ℚ)) = none
          ↔ extractAmountFromLine p.2 true false = none := by
      intro p
      cases h : extractAmountFromLine p.2 true false <;> simp [h]
    constructor
    · intro h l hl
      have h3 := (forall_enum_snd (lines.reverse.take 80)
        (fun l => extractAmountFromLine l true false = none)).mp
        (fun p hp => (h2 p).mp (h p hp))
      exact h3 l hl
    · intro h p hp
      exact (h2 p).mpr ((forall_enum_snd (lines.reverse.take 80)
        (fun l => extractAmountFromLine l true false = none)).mpr h p hp)
  · intro a c h
    unfold parseTotal at h
    cases hp : pickBest (totalCandidates lines confs) with
    | none =>
      rw [hp] at h
      simp at h
    | some x =>
      rw [hp] at h
      have hx1 : x.1 = a := by
        have := congrArg Prod.fst h
        simpa using this
      have hx2 : x.2.1 = c := by
        have := congrArg Prod.snd h
        simpa using this
      refine ⟨x.2.2, ?_, ?_⟩
      · have hm := pickBest_mem hp
        have : (a, c, x.2.2) = x := by
          rw [← hx1, ← hx2]
        rw [this]
        exact hm
      · exact pickBest_max hp

/-- Witness for C5: on the single line "TOTAL 10.80" with no confidence map,
the selected total 10.80 with confidence 0 belongs to the candidate list with
a maximal score. -/
theorem parse_total_highest_scoring_witness :
    ∃ s, ((54/5 : ℚ), (0 : ℚ), s) ∈ totalCandidates ["TOTAL 10.80"] []
      ∧ ∀ x ∈ totalCandidates ["TOTAL 10.80"] [], x.2.2 ≤ s :=
  (parse_total_highest_scoring ["TOTAL 10.80"] []).2 (54/5) 0 (by with_unfolding_all decide)

/-! ## C7: date extraction -/

theorem findSome?_some_exists {α β : Type} (f : α → Option β) :
    ∀ (l : List α) (b : β), l.findSome? f = some b → ∃ a ∈ l, f a = some b
  | [], b => by intro h; cases h
  | a :: as, b => by
    intro h
    rw [List.findSome?_cons] at h
    cases hf : f a with
    | some v =>
      simp only [hf] at h
      exact ⟨a, List.mem_cons_self a as, by rw [hf, h]⟩
    | none =>
      simp only [hf] at h
      obtain ⟨x, hx, he⟩ := findSome?_some_exists f as b h
      exact ⟨x, List.mem_cons_of_mem a hx, he⟩

theorem safeParseDate_year (oracle : String → Option DateD) (v : String) (d : DateD)
    (h : safeParseDate oracle v = some d) : 2000 ≤ d.year ∧ d.year ≤ 2100 := by
  unfold safeParseDate at h
  cases ho : oracle v with
  | none =>
    simp only [ho] at h
    exact Option.noConfusion h
  | some x =>
    simp only [ho] at h
    split_ifs at h with hy
    have hxd : x = d := by injection h
    subst hxd
    push_neg at hy
    omega

theorem parseDateLine_year (oracle : String → Option DateD) (l : String) (d : DateD)
    (h : parseDateLine oracle l = some d) : 2000 ≤ d.year ∧ d.year ≤ 2100 := by
  simp only [parseDateLine] at h
  cases hf : (findallDate matchDMY (normalizeDigits l) ++ findallDate matchYMD (normalizeDigits l)
      ++ findallDate matchMonthDate (normalizeDigits l)).findSome? (safeParseDate oracle) with
  | some x =>
    simp only [hf] at h
    obtain ⟨s, _, hs⟩ := findSome?_some_exists (safeParseDate oracle) _ x hf
    have hx : x = d := by injection h
    exact hx ▸ safeParseDate_year oracle s x hs
  | none =>
    simp only [hf] at h
    exact safeParseDate_year oracle _ d h

theorem parseDateAux_year (oracle : String → Option DateD) (confs : List (String × ℚ)) :
    ∀ (ls : List String) (d : DateD) (c : ℚ),
      parseDateAux oracle confs ls = (some d, c) → 2000 ≤ d.year ∧ d.year ≤ 2100
  | [], d, c => by intro h; cases h
  | l :: rest, d, c => by
    intro h
    unfold parseDateAux at h
    cases hl : parseDateLine oracle l with
    | some x =>
      simp only [hl] at h
      have hx : x = d := by
        have := congrArg Prod.fst h
        simpa using this
      exact hx ▸ parseDateLine_year oracle l x hl
    | none =>
      simp only [hl] at h
      exact parseDateAux_year oracle confs rest d c h

theorem parseDateAux_none_iff (oracle : String → Option DateD) (confs : List (String × ℚ)) :
    ∀ ls : List String, (parseDateAux oracle confs ls).1 = none
      ↔ ∀ l ∈ ls, parseDateLine oracle l = none
  | [] => by simp [parseDateAux]
  | l :: rest => by
    unfold parseDateAux
    cases hl : parseDateLine oracle l with
    | some x => simp [hl]
    | none => simp [hl, parseDateAux_none_iff oracle confs rest]

theorem insertByKey_partition (x : String) (A B : List String)
    (hA : ∀ a ∈ A, dateSortKey a = 0) (hB : ∀ b ∈ B, dateSortKey b = 1) :
    insertByKey dateSortKey x (A ++ B)
      = if dateSortKey x = 0 then x :: (A ++ B) else A ++ x :: B := by
  induction A with
  | nil =>
    simp only [List.nil_append]
    cases B with
    | nil =>
      simp only [insertByKey]
      split_ifs <;> rfl
    | cons b bs =>
      have hb := hB b (List.mem_cons_self b bs)
      simp only [insertByKey]
      have hc : dateSortKey x ≤ dateSortKey b := by
        rw [hb]
        unfold dateSortKey
        split_ifs <;> omega
      rw [if_pos hc]
      split_ifs <;> rfl
  | cons a A2 ih =>
    have ha := hA a (List.mem_cons_self a A2)
    have ih2 := ih (fun y hy => hA y (List.mem_cons_of_mem a hy))
    simp only [List.cons_append, insertByKey, List.append_eq]
    by_cases hx : dateSortKey x = 0
    · rw [if_pos (by rw [hx, ha] : dateSortKey x ≤ dateSortKey a), if_pos hx]
    · have hx1 : dateSortKey x = 1 := by
        unfold dateSortKey at hx ⊢
        split_ifs at hx ⊢ <;> omega
      rw [if_neg (by rw [hx1, ha]; omega : ¬ dateSortKey x ≤ dateSortKey a), ih2]
      simp only [if_neg hx]

theorem sortByKey_partition : ∀ ls : List String,
    sortByKey dateSortKey ls
      = ls.filter (fun l => hasDateKeyword l) ++ ls.filter (fun l => !hasDateKeyword l)
  | [] => rfl
  | l :: rest => by
    have hA : ∀ a ∈ rest.filter (fun l => hasDateKeyword l), dateSortKey a = 0 := by
      intro a ha
      have h := List.of_mem_filter ha
      unfold dateSortKey
      rw [h]
      rfl
    have hB : ∀ b ∈ rest.filter (fun l => !hasDateKeyword l), dateSortKey b = 1 := by
      intro b hb
      have h := List.of_mem_filter hb
      unfold dateSortKey
      rw [Bool.not_eq_true' ] at h
      rw [h]
      rfl
    simp only [sortByKey, sortByKey_partition rest]
    rw [insertByKey_partition l _ _ hA hB]
    by_cases h : hasDateKeyword l
    · rw [if_pos (by unfold dateSortKey; rw [h]; rfl : dateSortKey l = 0)]
      simp [List.filter_cons, h]
    · rw [if_neg (by unfold dateSortKey; rw [Bool.not_eq_true] at h; rw [h]; simp :
        ¬ dateSortKey l = 0)]
      simp [List.filter_cons, h]

/-- C7: date extraction ranks date-keyword lines before all others while
preserving relative order within each group (the stable sort by the 0/1 key
equals the keyword/non-keyword partition), per line tries the three regex
families on the digit-normalized text before a fuzzy whole-line parse
(`parseDateLine`), returns the first successfully parsed date (none exactly
when every ranked line fails), and every returned date's year lies between
2000 and 2100 inclusive, for every oracle behaviour of the external parser. -/
theorem date_extraction_spec :
    (∀ (oracle : String → Option DateD) (lines : List String) (confs : List (String × ℚ))
      (d : DateD) (c : ℚ), parseDate oracle lines confs = (some d, c) →
        2000 ≤ d.year ∧ d.year ≤ 2100)
    ∧ (∀ lines : List String, sortByKey dateSortKey lines
        = lines.filter (fun l => hasDateKeyword l) ++ lines.filter (fun l => !hasDateKeyword l))
    ∧ (∀ (oracle : String → Option DateD) (lines : List String) (confs : List (String × ℚ)),
        (parseDate oracle lines confs).1 = none
          ↔ ∀ l ∈ sortByKey dateSortKey lines, parseDateLine oracle l = none) := by
  refine ⟨?_, sortByKey_partition, ?_⟩
  · intro oracle lines confs d c h
    exact parseDateAux_year oracle confs (sortByKey dateSortKey lines) d c h
  · intro oracle lines confs
    exact parseDateAux_none_iff oracle confs (sortByKey dateSortKey lines)

set_option maxRecDepth 400000 in
/-- Witness for C7: the line "DATE 01/15/2024" parses to 2024-01-15 through
the first regex family and the modelled external parser, and the returned
year lies in the 2000-2100 window. -/
theorem date_extraction_spec_witness :
    parseDate dateutilM ["DATE 01/15/2024"] [] = (some ⟨2024, 1, 15⟩, 0)
    ∧ (2000 ≤ (2024 : Nat) ∧ (2024 : Nat) ≤ 2100) :=
  ⟨by with_unfolding_all decide,
   date_extraction_spec.1 dateutilM ["DATE 01/15/2024"] [] ⟨2024, 1, 15⟩ 0
     (by with_unfolding_all decide)⟩

/-! ## C2: confidence bounds and the needs-review invariant -/

theorem lineConfidence_le (line : String) (m : List (String × ℚ))
    (h : ∀ p ∈ m, p.2 ≤ 100) : lineConfidence line m ≤ 100 := by
  unfold lineConfidence
  split_ifs with h1
  · norm_num
  · dsimp only
    split_ifs with h2
    · norm_num
    · cases hf : m.find? (fun p => p.1 = normalizeForMatch line) with
      | some p =>
        simp only [hf]
        exact h p (List.mem_of_find?_eq_some hf)
      | none =>
        simp only [hf]
        cases hf2 : m.find? (fun p =>
            containsStr p.1 (normalizeForMatch line) || containsStr (normalizeForMatch line) p.1) with
        | some p =>
          simp only [hf2]
          exact h p (List.mem_of_find?_eq_some hf2)
        | none =>
          simp only [hf2]
          norm_num

theorem setKey_le {m : List (String × ℚ)} {k : String} {v : ℚ}
    (hm : ∀ p ∈ m, p.2 ≤ 100) (hv : v ≤ 100) : ∀ p ∈ setKey m k v, p.2 ≤ 100 := by
  intro p hp
  unfold setKey at hp
  split_ifs at hp with hc
  · obtain ⟨q, hq, he⟩ := List.mem_map.mp hp
    split_ifs at he with hk
    · rw [← he]
      exact hv
    · rw [← he]
      exact hm q hq
  · rcases List.mem_append.mp hp with h1 | h1
    · exact hm p h1
    · have : p = (k, v) := by simpa using h1
      rw [this]
      exact hv

theorem buildLineConfidenceMapAux_le :
    ∀ (lines : List OcrLine) (m0 : List (String × ℚ)),
      (∀ l ∈ lines, l.confidence ≤ 100) → (∀ p ∈ m0, p.2 ≤ 100) →
      ∀ p ∈ lines.foldl (fun m l =>
        if stripStr l.text = "" then m
        else setKey m (normalizeForMatch (stripStr l.text)) l.confidence) m0, p.2 ≤ 100
  | [], _ => fun _ hm => hm
  | l :: rest, m0 => by
    intro hl hm
    simp only [List.foldl_cons]
    apply buildLineConfidenceMapAux_le rest
    · intro x hx
      exact hl x (List.mem_cons_of_mem l hx)
    · split_ifs with ht
      · exact hm
      · exact setKey_le hm (hl l (List.mem_cons_self l rest))

theorem buildLineConfidenceMap_le (lines : List OcrLine)
    (h : ∀ l ∈ lines, l.confidence ≤ 100) :
    ∀ p ∈ buildLineConfidenceMap lines, p.2 ≤ 100 :=
  buildLineConfidenceMapAux_le lines [] h (by intro p hp; cases hp)

theorem parseMerchantAux_conf (confs : List (String × ℚ))
    (h : ∀ p ∈ confs, p.2 ≤ 100) :
    ∀ (ls : List String) (m : String) (c : ℚ),
      parseMerchantAux confs ls = some (m, c) → c ≤ 100
  | [], m, c => by intro h2; cases h2
  | l :: rest, m, c => by
    intro h2
    rw [parseMerchantAux_cons] at h2
    cases hq : merchantQualifyAmended l with
    | some nm =>
      simp only [hq] at h2
      have hc : lineConfidence l confs = c := by
        have := congrArg (fun z => Prod.snd z) (Option.some.inj h2)
        simpa using this
      rw [← hc]
      exact lineConfidence_le l confs h
    | none =>
      simp only [hq] at h2
      exact parseMerchantAux_conf confs h rest m c h2

theorem parseMerchant_conf_le (lines : List String) (confs : List (String × ℚ))
    (h : ∀ p ∈ confs, p.2 ≤ 100) : (parseMerchant lines confs).2 ≤ 100 := by
  cases lines with
  | nil => norm_num [parseMerchant]
  | cons first rest =>
    unfold parseMerchant
    cases ha : parseMerchantAux confs ((first :: rest).take 12) with
    | some r =>
      simp only [ha]
      exact parseMerchantAux_conf confs h _ r.1 r.2 (by rw [ha])
    | none =>
      simp only [ha]
      exact lineConfidence_le _ confs h

theorem parseDateAux_conf (oracle : String → Option DateD) (confs : List (String × ℚ))
    (h : ∀ p ∈ confs, p.2 ≤ 100) :
    ∀ ls : List String, (parseDateAux oracle confs ls).2 ≤ 100
  | [] => by norm_num [parseDateAux]
  | l :: rest => by
    unfold parseDateAux
    cases hl : parseDateLine oracle l with
    | some d =>
      simp only [hl]
      exact lineConfidence_le l confs h
    | none =>
      simp only [hl]
      exact parseDateAux_conf oracle confs h rest

theorem parseDate_conf_le (oracle : String → Option DateD) (lines : List String)
    (confs : List (String × ℚ)) (h : ∀ p ∈ confs, p.2 ≤ 100) :
    (parseDate oracle lines confs).2 ≤ 100 :=
  parseDateAux_conf oracle confs h (sortByKey dateSortKey lines)

theorem parseDateAux_none_conf (oracle : String → Option DateD) (confs : List (String × ℚ)) :
    ∀ ls : List String, (parseDateAux oracle confs ls).1 = none →
      (parseDateAux oracle confs ls).2 = 0
  | [] => by intro _; rfl
  | l :: rest => by
    intro h
    unfold parseDateAux at h ⊢
    cases hl : parseDateLine oracle l with
    | some d =>
      simp only [hl] at h
      exact Option.noConfusion h
    | none =>
      simp only [hl] at h ⊢
      exact parseDateAux_none_conf oracle confs rest h

theorem parseDate_none_conf (oracle : String → Option DateD) (lines : List String)
    (confs : List (String × ℚ)) (h : (parseDate oracle lines confs).1 = none) :
    (parseDate oracle lines confs).2 = 0 :=
  parseDateAux_none_conf oracle confs (sortByKey dateSortKey lines) h

theorem totalCandidates_conf_le (lines : List String) (confs : List (String × ℚ))
    (h : ∀ p ∈ confs, p.2 ≤ 100) :
    ∀ x ∈ totalCandidates lines confs, x.2.1 ≤ 100 := by
  intro x hx
  unfold totalCandidates at hx
  obtain ⟨p, hp, he⟩ := List.mem_filterMap.mp hx
  cases ha : extractAmountFromLine p.2 true false with
  | none =>
    simp only [ha] at he
    exact Option.noConfusion he
  | some a =>
    simp only [ha] at he
    have hx2 := Option.some.inj he
    rw [← hx2]
    exact lineConfidence_le p.2 confs h

theorem parseTotal_conf_le (lines : List String) (confs : List (String × ℚ))
    (h : ∀ p ∈ confs, p.2 ≤ 100) : (parseTotal lines confs).2 ≤ 100 := by
  unfold parseTotal
  cases hp : pickBest (totalCandidates lines confs) with
  | none => norm_num
  | some x =>
    simp only [hp]
    exact totalCandidates_conf_le lines confs h x (pickBest_mem hp)

theorem parseTotal_none_conf (lines : List String) (confs : List (String × ℚ))
    (h : (parseTotal lines confs).1 = none) : (parseTotal lines confs).2 = 0 := by
  unfold parseTotal at h ⊢
  cases hp : pickBest (totalCandidates lines confs) with
  | none => simp only [hp]
  | some x =>
    simp only [hp] at h
    exact Option.noConfusion h

theorem salesTaxCandidates_conf_le (lines : List String) (confs : List (String × ℚ))
    (h : ∀ p ∈ confs, p.2 ≤ 100) :
    ∀ x ∈ salesTaxCandidates lines confs, x.2.1 ≤ 100 := by
  intro x hx
  unfold salesTaxCandidates at hx
  obtain ⟨p, hp, he⟩ := List.mem_filterMap.mp hx
  split_ifs at he with hk
  · cases ha : extractAmountFromLine p.2 true true with
    | none =>
      simp only [ha] at he
      exact Option.noConfusion he
    | some a =>
      simp only [ha] at he
      have hx2 := Option.some.inj he
      rw [← hx2]
      exact lineConfidence_le p.2 confs h

theorem parseSalesTax_conf_le (lines : List String) (confs : List (String × ℚ))
    (h : ∀ p ∈ confs, p.2 ≤ 100) : (parseSalesTax lines confs).2 ≤ 100 := by
  unfold parseSalesTax
  cases hp : pickBest (salesTaxCandidates lines confs) with
  | none => norm_num
  | some x =>
    simp only [hp]
    exact salesTaxCandidates_conf_le lines confs h x (pickBest_mem hp)

theorem taxGuard_conf_le (tax0 : Option ℚ) (conf0 : ℚ) (total : Option ℚ)
    (h : conf0 ≤ 100) : (taxGuard tax0 conf0 total).2 ≤ 100 := by
  unfold taxGuard
  cases tax0 <;> cases total <;> try exact h
  dsimp only
  split_ifs
  · norm_num
  · exact h

theorem taxFallback_conf_le (g : Option ℚ × ℚ) (subtotal total : Option ℚ)
    (h : g.2 ≤ 100) : (taxFallback g subtotal total).2 ≤ 100 := by
  unfold taxFallback
  split
  · split_ifs
    · exact max_le h (by norm_num)
    · exact h
  · exact h

theorem taxAdjust_conf_le (tax0 : Option ℚ) (conf0 : ℚ) (total subtotal : Option ℚ)
    (h : conf0 ≤ 100) : (taxAdjust tax0 conf0 total subtotal).2 ≤ 100 :=
  taxFallback_conf_le _ _ _ (taxGuard_conf_le tax0 conf0 total h)

theorem clampRound_lt_78 (w : ℚ) (h : w ≤ 77) : max 0 (min 100 (roundQ2 w)) < 78 := by
  have h1 : roundQ2 w ≤ 77 := by
    have := roundQ2_le_int w 77 (by exact_mod_cast h)
    exact_mod_cast this
  have h2 : min (100 : ℚ) (roundQ2 w) ≤ 77 := le_trans (min_le_right _ _) h1
  have h3 : max (0 : ℚ) (min 100 (roundQ2 w)) ≤ 77 := max_le (by norm_num) h2
  linarith

theorem compute_lt_78_no_total (p mc dc xc : ℚ) (hp : p ≤ 100) (hmc : mc ≤ 100)
    (hdc : dc ≤ 100) (hxc : xc ≤ 100) (hd hx : Bool) :
    computeOverallConfidence p mc dc 0 xc false hd hx < 78 := by
  unfold computeOverallConfidence
  apply clampRound_lt_78
  cases hd <;> cases hx <;> norm_num <;> linarith

theorem compute_lt_78_no_date (p mc tc xc : ℚ) (hp : p ≤ 100) (hmc : mc ≤ 100)
    (htc : tc ≤ 100) (hxc : xc ≤ 100) (ht hx : Bool) :
    computeOverallConfidence p mc 0 tc xc ht false hx < 78 := by
  unfold computeOverallConfidence
  apply clampRound_lt_78
  cases ht <;> cases hx <;> norm_num <;> linarith

set_option maxRecDepth 400000 in
/-- Counterexample for C2: an OCR result with merchant, date and total all
present at line confidence 95 (pass confidence 95) but no tax line: the tax is
missing, yet the aggregated confidence is 78.6, so needs_review is false. -/
theorem missing_tax_review_counterexample :
    (extractReceiptFields dateutilM ocrC2).salesTaxAmount = none
    ∧ (extractReceiptFields dateutilM ocrC2).extractionConfidence = 786/10
    ∧ (extractReceiptFields dateutilM ocrC2).needsReview = false := by
  with_unfolding_all decide

/-- C2 (amended): with every engine confidence bounded by 100, a Receipt
missing its total or its purchase date is always flagged needs-review (the
-20 and -10 penalties together with the zero field confidence force the score
below 78); a missing tax only incurs the -5 penalty and does not by itself
force review; and needs_review holds exactly when the aggregated confidence is
below 78. -/
theorem missing_total_or_date_forces_review (oracle : String → Option DateD)
    (ocr : OcrResult)
    (hl : ∀ l ∈ ocr.lines ++ ocr.topLines ++ ocr.bottomLines ++ ocr.bottomNumbersLines,
      l.confidence ≤ 100)
    (hpa : ocr.avgConfidence ≤ 100) (hpt : ocr.topConfidence ≤ 100)
    (hpb : ocr.bottomConfidence ≤ 100) :
    ((extractReceiptFields oracle ocr).totalAmount = none →
      (extractReceiptFields oracle ocr).needsReview = true)
    ∧ ((extractReceiptFields oracle ocr).purchaseDate = none →
      (extractReceiptFields oracle ocr).needsReview = true)
    ∧ ((extractReceiptFields oracle ocr).needsReview = true
      ↔ (extractReceiptFields oracle ocr).extractionConfidence < 78) := by
  have hmap : ∀ p ∈ extrConfMap ocr, p.2 ≤ 100 := buildLineConfidenceMap_le _ hl
  have hpass : extrPassConf ocr ≤ 100 := max_le hpa (max_le hpt hpb)
  have hmc : (extrMerchant ocr).2 ≤ 100 := parseMerchant_conf_le _ _ hmap
  have hdc : (extrDate oracle ocr).2 ≤ 100 := parseDate_conf_le oracle _ _ hmap
  have htcb : (extrTotal ocr).2 ≤ 100 := parseTotal_conf_le _ _ hmap
  have hxc : (extrTaxAdj ocr).2 ≤ 100 :=
    taxAdjust_conf_le _ _ _ _ (parseSalesTax_conf_le _ _ hmap)
  have hrev : ∀ q : ℚ, (extractReceiptFields oracle ocr).extractionConfidence < 78 →
      (extractReceiptFields oracle ocr).needsReview = true := by
    intro _ hlt
    have he : (extractReceiptFields oracle ocr).needsReview
        = decide ((extractReceiptFields oracle ocr).extractionConfidence < 78) := rfl
    rw [he, decide_eq_true_eq]
    exact hlt
  refine ⟨?_, ?_, ?_⟩
  · intro h0
    have h0t : (extrTotal ocr).1 = none := h0
    have htc0 : (extrTotal ocr).2 = 0 := parseTotal_none_conf _ _ h0t
    apply hrev 0
    show computeOverallConfidence (extrPassConf ocr) (extrMerchant ocr).2
      (extrDate oracle ocr).2 (extrTotal ocr).2 (extrTaxAdj ocr).2
      (extrTotal ocr).1.isSome (extrDate oracle ocr).1.isSome
      (extrTaxAdj ocr).1.isSome < 78
    rw [h0t, htc0]
    exact compute_lt_78_no_total _ _ _ _ hpass hmc hdc hxc _ _
  · intro h0
    have h0d : (extrDate oracle ocr).1 = none := h0
    have hdc0 : (extrDate oracle ocr).2 = 0 := parseDate_none_conf oracle _ _ h0d
    apply hrev 0
    show computeOverallConfidence (extrPassConf ocr) (extrMerchant ocr).2
      (extrDate oracle ocr).2 (extrTotal ocr).2 (extrTaxAdj ocr).2
      (extrTotal ocr).1.isSome (extrDate oracle ocr).1.isSome
      (extrTaxAdj ocr).1.isSome < 78
    rw [h0d, hdc0]
    exact compute_lt_78_no_date _ _ _ _ hpass hmc htcb hxc _ _
  · have he : (extractReceiptFields oracle ocr).needsReview
        = decide ((extractReceiptFields oracle ocr).extractionConfidence < 78) := rfl
    rw [he, decide_eq_true_eq]

/-- Witness for C2 (amended): a one-line OCR result with no amount anywhere
has no total, and the amended theorem flags it needs-review. -/
theorem missing_total_or_date_forces_review_witness :
    (extractReceiptFields dateutilM ocrC2W).totalAmount = none
    ∧ (extractReceiptFields dateutilM ocrC2W).needsReview = true :=
  ⟨by with_unfolding_all decide,
   (missing_total_or_date_forces_review dateutilM ocrC2W
     (by with_unfolding_all decide) (by with_unfolding_all decide)
     (by with_unfolding_all decide) (by with_unfolding_all decide)).1
     (by with_unfolding_all decide)⟩

/-! ## C8: confidence monotonicity under removal of the total line -/

theorem clampRound_mono {w1 w2 : ℚ} (h : w1 ≤ w2) :
    max 0 (min 100 (roundQ2 w1)) ≤ max 0 (min 100 (roundQ2 w2)) :=
  max_le_max le_rfl (min_le_min le_rfl (roundQ2_mono h))

theorem compute_mono_total (p mc dc xc tcA : ℚ) (h : 0 ≤ tcA) (htA hd hx : Bool) :
    computeOverallConfidence p mc dc 0 xc false hd hx
      ≤ computeOverallConfidence p mc dc tcA xc htA hd hx := by
  unfold computeOverallConfidence
  apply clampRound_mono
  cases htA <;> cases hd <;> cases hx <;> norm_num <;> linarith

set_option maxRecDepth 400000 in
/-- Counterexample for C8: in `ocrC8Full` the keyword bonus makes the
confidence-60 line "TOTAL 5.00" win the total (5.00), beating the
confidence-80 amount line; removing exactly that line (`ocrC8Removed`, with
all remaining lines, their confidences, and the pass confidences identical)
promotes the 80-confidence amount to the total, and the aggregated confidence
strictly increases from 70.9 to 75.3. -/
theorem total_removal_counterexample :
    (extractReceiptFields dateutilM ocrC8Full).totalAmount = some 5
    ∧ extractAmountFromLine "TOTAL 5.00" true false = some 5
    ∧ normalizeLines ocrC8Full.text = ["DATE 01/15/2024", "MERCH", "TOTAL 5.00", "$9.99"]
    ∧ normalizeLines ocrC8Removed.text = ["DATE 01/15/2024", "MERCH", "$9.99"]
    ∧ ocrC8Removed.lines = ocrC8Full.lines
    ∧ ocrC8Removed.avgConfidence = ocrC8Full.avgConfidence
    ∧ (extractReceiptFields dateutilM ocrC8Full).extractionConfidence = 709/10
    ∧ (extractReceiptFields dateutilM ocrC8Removed).extractionConfidence = 753/10
    ∧ (extractReceiptFields dateutilM ocrC8Full).extractionConfidence
        < (extractReceiptFields dateutilM ocrC8Removed).extractionConfidence := by
  with_unfolding_all decide

/-- C8 (amended): removing a line containing the extracted total can strictly
increase the aggregated confidence (see the counterexample); the non-increase
guarantee does hold whenever the removal leaves no total candidate at all and
the pass confidence, merchant, date and adjusted-tax results are unchanged:
losing the total can then only cost the -20 penalty and the weighted total
confidence. -/
theorem total_removal_monotonicity_amended (oracle : String → Option DateD)
    (ocrA ocrB : OcrResult)
    (hp : extrPassConf ocrB = extrPassConf ocrA)
    (hm : extrMerchant ocrB = extrMerchant ocrA)
    (hd : extrDate oracle ocrB = extrDate oracle ocrA)
    (hx : extrTaxAdj ocrB = extrTaxAdj ocrA)
    (hB : (extrTotal ocrB).1 = none)
    (hAc : 0 ≤ (extrTotal ocrA).2) :
    (extractReceiptFields oracle ocrB).extractionConfidence
      ≤ (extractReceiptFields oracle ocrA).extractionConfidence := by
  have hBc : (extrTotal ocrB).2 = 0 := parseTotal_none_conf _ _ hB
  show computeOverallConfidence (extrPassConf ocrB) (extrMerchant ocrB).2
      (extrDate oracle ocrB).2 (extrTotal ocrB).2 (extrTaxAdj ocrB).2
      (extrTotal ocrB).1.isSome (extrDate oracle ocrB).1.isSome
      (extrTaxAdj ocrB).1.isSome
    ≤ computeOverallConfidence (extrPassConf ocrA) (extrMerchant ocrA).2
      (extrDate oracle ocrA).2 (extrTotal ocrA).2 (extrTaxAdj ocrA).2
      (extrTotal ocrA).1.isSome (extrDate oracle ocrA).1.isSome
      (extrTaxAdj ocrA).1.isSome
  rw [hp, hm, hd, hx, hB, hBc]
  exact compute_mono_total _ _ _ _ _ hAc _ _ _

set_option maxRecDepth 400000 in
/-- Witness for C8 (amended): dropping the total line of a two-line receipt
leaves no amount at all, and the aggregated confidence does not increase. -/
theorem total_removal_monotonicity_amended_witness :
    (extractReceiptFields dateutilM ocrC8WRemoved).extractionConfidence
      ≤ (extractReceiptFields dateutilM ocrC8WFull).extractionConfidence :=
  total_removal_monotonicity_amended dateutilM ocrC8WFull ocrC8WRemoved
    (by with_unfolding_all decide) (by with_unfolding_all decide)
    (by with_unfolding_all decide) (by with_unfolding_all decide)
    (by with_unfolding_all decide) (by with_unfolding_all decide)

/-! ## C9 and C10: job lifecycle -/

theorem alookup_aupdate {κ α : Type} [DecidableEq κ] :
    ∀ (l : List (κ × α)) (i : κ) (v x : α),
      alookup l i = some x → alookup (aupdate l i v) i = some v := by
  intro l i v
  induction l with
  | nil => intro x h; cases h
  | cons p rest ih =>
    intro x h
    obtain ⟨k, w⟩ := p
    by_cases hk : k = i
    · subst hk
      show alookup ((if k = k then (k, v) else (k, w)) :: aupdate rest k v) k = some v
      rw [if_pos rfl]
      show (if k = k then some v else alookup (aupdate rest k v) k) = some v
      rw [if_pos rfl]
    · have h2 : alookup rest i = some x := by
        have he : alookup ((k, w) :: rest) i = if k = i then some w else alookup rest i := rfl
        rw [he, if_neg hk] at h
        exact h
      show alookup ((if k = i then (i, v) else (k, w)) :: aupdate rest i v) i = some v
      rw [if_neg hk]
      show (if k = i then some w else alookup (aupdate rest i v) i) = some v
      rw [if_neg hk]
      exact ih x h2

theorem takeChars_length_le (s : String) (n : Nat) : (takeChars s n).length ≤ n := by
  have h : (takeChars s n).length = (s.data.take n).length := rfl
  rw [h]
  exact List.length_take_le n s.data

/-- C9: processing a job that is already terminal is a no-op (the state,
hence every job, Receipt and blob, is returned unchanged); every failure path
stores an error message of at most 2000 characters; and a job still
queued/processing is marked processing with a start timestamp and driven to a
terminal `completed`/`failed` status. -/
theorem job_terminal_noop_and_failure_truncation :
    (∀ {B : Type} (imgOcr : B → Except String OcrResult) (render : B → List B)
      (oracle : String → Option DateD) (now : Nat) (st : SysState B) (jobId : Nat)
      (job : JobRec), alookup st.jobs jobId = some job →
      job.status ≠ "queued" → job.status ≠ "processing" →
      processUploadJob imgOcr render oracle now st jobId = st)
    ∧ (∀ {B : Type} (st : SysState B) (jobId : Nat) (err : String) (now : Nat)
      (job : JobRec), alookup st.jobs jobId = some job →
      ∃ j2, alookup (markUploadJobFailed st jobId err now).jobs jobId = some j2
        ∧ j2.status = "failed" ∧ ∃ s, j2.errorMessage = some s ∧ s.length ≤ 2000)
    ∧ (∀ {B : Type} (imgOcr : B → Except String OcrResult) (render : B → List B)
      (oracle : String → Option DateD) (now : Nat) (st : SysState B) (jobId : Nat)
      (job : JobRec), alookup st.jobs jobId = some job →
      (job.status = "queued" ∨ job.status = "processing") →
      ∃ j2, alookup (processUploadJob imgOcr render oracle now st jobId).jobs jobId = some j2
        ∧ (j2.status = "completed" ∨ j2.status = "failed")
        ∧ j2.startedAt = some now) := by
  refine ⟨?_, ?_, ?_⟩
  · intro B imgOcr render oracle now st jobId job hl h1 h2
    unfold processUploadJob
    simp only [hl]
    rw [if_pos ⟨h1, h2⟩]
  · intro B st jobId err now job hl
    refine ⟨{ job with
        status := "failed"
        completedAt := some now
        errorMessage := some (takeChars (if err = "" then "OCR failed" else err) 2000) },
      ?_, rfl, ⟨_, rfl, takeChars_length_le _ _⟩⟩
    unfold markUploadJobFailed
    simp only [hl]
    exact alookup_aupdate _ _ _ _ hl
  · intro B imgOcr render oracle now st jobId job hl hqp
    unfold processUploadJob
    simp only [hl]
    rw [if_neg (by rcases hqp with h | h <;> simp [h])]
    dsimp only
    have hl1 := alookup_aupdate st.jobs jobId ({ job with status := "processing", startedAt := some now, errorMessage := none }) job hl
    split
    · -- missing blob: the job is marked failed
      unfold markUploadJobFailed
      dsimp only
      simp only [hl1]
      exact ⟨_, alookup_aupdate _ _ _ _ hl1, Or.inr rfl, rfl⟩
    · split
      · -- OCR raised: the job is marked failed, then the blob is deleted
        unfold markUploadJobFailed
        dsimp only
        simp only [hl1]
        exact ⟨_, alookup_aupdate _ _ _ _ hl1, Or.inr rfl, rfl⟩
      · -- success: the job is completed
        exact ⟨_, alookup_aupdate _ _ _ _ hl1, Or.inl rfl, rfl⟩

/-- Witness for C9: re-processing an already completed job returns the state
unchanged: no job mutation, no Receipt, no blob deletion. -/
theorem job_terminal_noop_witness :
    processUploadJob (fun _ => Except.ok emptyOcrResult) (fun _ => ([] : List Nat))
      dateutilM 5 sysC9 1 = sysC9 :=
  job_terminal_noop_and_failure_truncation.1 (fun _ => Except.ok emptyOcrResult)
    (fun _ => ([] : List Nat)) dateutilM 5 sysC9 1 jobRecCompleted
    (by decide) (by decide) (by decide)

/-- C10: a PDF whose rendering yields zero pages makes `run_ocr_pdf` raise
the ValueError "PDF contains no renderable pages"; a queued PDF job whose
payload renders to zero pages is therefore marked `failed` with exactly that
error message and no Receipt is created; by contrast an image job whose OCR
returns the empty OCR result completes and creates a Receipt. -/
theorem pdf_zero_pages_fails_job :
    (∀ {B : Type} (render : B → List B) (ocrPage : B → Except String OcrResult) (pdf : B),
      render pdf = [] →
      runOcrPdf render ocrPage pdf = Except.error "PDF contains no renderable pages")
    ∧ (∀ {B : Type} (imgOcr : B → Except String OcrResult) (render : B → List B)
      (oracle : String → Option DateD) (now : Nat) (st : SysState B) (jobId : Nat)
      (job : JobRec) (payload : B),
      alookup st.jobs jobId = some job → job.status = "queued" →
      job.contentType = some "application/pdf" →
      alookup st.blobs job.storedFilename = some payload →
      render payload = [] →
      ∃ j2, alookup (processUploadJob imgOcr render oracle now st jobId).jobs jobId = some j2
        ∧ j2.status = "failed"
        ∧ j2.errorMessage = some "PDF contains no renderable pages"
        ∧ (processUploadJob imgOcr render oracle now st jobId).receipts = st.receipts)
    ∧ (∀ {B : Type} (render : B → List B) (oracle : String → Option DateD) (now : Nat)
      (st : SysState B) (jobId : Nat) (job : JobRec) (payload : B),
      alookup st.jobs jobId = some job → job.status = "queued" →
      lowerStr (job.contentType.getD "") ≠ "application/pdf" →
      lowerStr (pathSuffix job.storedFilename) ≠ ".pdf" →
      alookup st.blobs job.storedFilename = some payload →
      ∃ j2, alookup (processUploadJob (fun _ => Except.ok emptyOcrResult) render oracle
          now st jobId).jobs jobId = some j2
        ∧ j2.status = "completed"
        ∧ (processUploadJob (fun _ => Except.ok emptyOcrResult) render oracle
            now st jobId).receipts.length = st.receipts.length + 1) := by
  refine ⟨?_, ?_, ?_⟩
  · intro B render ocrPage pdf hr
    unfold runOcrPdf
    rw [hr]
    rfl
  · intro B imgOcr render oracle now st jobId job payload hl hq hct hbl hr
    unfold processUploadJob
    simp only [hl]
    rw [if_neg (by simp [hq])]
    dsimp only
    have hl1 := alookup_aupdate st.jobs jobId ({ job with status := "processing", startedAt := some now, errorMessage := none }) job hl
    simp only [hbl]
    rw [if_pos (Or.inl (by rw [hct]; with_unfolding_all decide))]
    rw [show runOcrPdf render imgOcr payload
        = Except.error "PDF contains no renderable pages" from by
      unfold runOcrPdf
      rw [hr]
      rfl]
    unfold markUploadJobFailed
    dsimp only
    simp only [hl1]
    exact ⟨_, alookup_aupdate _ _ _ _ hl1, rfl, rfl, rfl⟩
  · intro B render oracle now st jobId job payload hl hq hct hsuf hbl
    unfold processUploadJob
    simp only [hl]
    rw [if_neg (by simp [hq])]
    dsimp only
    have hl1 := alookup_aupdate st.jobs jobId ({ job with status := "processing", startedAt := some now, errorMessage := none }) job hl
    simp only [hbl]
    rw [if_neg (by rintro (h | h); exacts [hct h, hsuf h])]
    dsimp only
    refine ⟨_, alookup_aupdate _ _ _ _ hl1, rfl, ?_⟩
    simp [deleteBlob]

/-- Witness for C10: on the concrete two-job state, the zero-page PDF job 2
fails with the ValueError message and creates no Receipt, while the image
job 3 (with the empty-result OCR engine) completes and creates one Receipt. -/
theorem pdf_zero_pages_fails_job_witness :
    runOcrPdf (fun _ => ([] : List Nat)) (fun _ => Except.ok emptyOcrResult) 0
      = Except.error "PDF contains no renderable pages"
    ∧ (∃ j2, alookup (processUploadJob (fun _ => Except.ok emptyOcrResult)
          (fun _ => ([] : List Nat)) dateutilM 5 sysC10 2).jobs 2 = some j2
        ∧ j2.status = "failed"
        ∧ j2.errorMessage = some "PDF contains no renderable pages"
        ∧ (processUploadJob (fun _ => Except.ok emptyOcrResult)
            (fun _ => ([] : List Nat)) dateutilM 5 sysC10 2).receipts = sysC10.receipts)
    ∧ (∃ j2, alookup (processUploadJob (fun _ => Except.ok emptyOcrResult)
          (fun _ => ([] : List Nat)) dateutilM 5 sysC10 3).jobs 3 = some j2
        ∧ j2.status = "completed"
        ∧ (processUploadJob (fun _ => Except.ok emptyOcrResult)
            (fun _ => ([] : List Nat)) dateutilM 5 sysC10 3).receipts.length
          = sysC10.receipts.length + 1) :=
  ⟨pdf_zero_pages_fails_job.1 (fun _ => ([] : List Nat)) (fun _ => Except.ok emptyOcrResult) 0 rfl,
   pdf_zero_pages_fails_job.2.1 (fun _ => Except.ok emptyOcrResult) (fun _ => ([] : List Nat))
     dateutilM 5 sysC10 2 jobRecQueuedPdf 7 (by decide) (by decide) (by decide) (by decide) rfl,
   pdf_zero_pages_fails_job.2.2 (fun _ => ([] : List Nat)) dateutilM 5 sysC10 3
     jobRecQueuedImg 8 (by decide) (by decide) (by with_unfolding_all decide)
     (by with_unfolding_all decide) (by decide)⟩
